import Mathlib

/-!
Verification development for the `bjw-db` persistence engine (`src/lib.rs`).

The engine is shallowly embedded: the store directory is an association
list from file names to byte contents, fallible filesystem primitives are
parametrized by a fault-injection structure (`Faults`), and each Rust
function of `Database<T, F>` is translated into a Lean function over this
model.  Rust's `&mut self` methods become functions returning the mutated
handle together with the mutated directory and an error status, so that
partial effects before an early `?`-return stay visible, exactly as on
disk.  The serde boundary (an external crate) is kept abstract behind the
`DataFormat` structure, mirroring the Rust trait of the same name.
-/

namespace BjwDb

/-- File contents as a list of bytes (`Nat`, with byte range enforced only
where the source enforces it, i.e. in the UTF-8 layer). -/
abbrev Bytes := List Nat

/-- File names, as lists of characters. -/
abbrev Name := List Char

/-- Error kinds relevant to the engine, abstracting `std::io::ErrorKind`:
`notFound` for missing files, `ioFault` for injected device failures,
`invalidData` for `ErrorKind::InvalidData` (parse/deserialize failures). -/
inductive DbError where
  | notFound
  | ioFault
  | invalidData
deriving DecidableEq

/-- Result type abstracting `std::io::Result`. -/
abbrev Result (α : Type _) := Except DbError α

/-- A store directory: an association list from file name to content.
File names are unique in any directory reachable from the model's
operations. -/
abbrev Dir := List (Name × Bytes)

/-- Look up a file's content. -/
def getFile (d : Dir) (n : Name) : Option Bytes :=
  match d with
  | [] => none
  | (m, c) :: rest => if m = n then some c else getFile rest n

/-- Remove every entry with the given name. -/
def removeFileD (d : Dir) (n : Name) : Dir :=
  match d with
  | [] => []
  | (m, c) :: rest =>
    if m = n then removeFileD rest n else (m, c) :: removeFileD rest n

/-- Create or overwrite a file (models `File::create` + `write_all`). -/
def setFile (d : Dir) (n : Name) (c : Bytes) : Dir :=
  removeFileD d n ++ [(n, c)]

/-- Existence test, models `Path::exists` on a file inside the store. -/
def fileExists (d : Dir) (n : Name) : Bool :=
  (getFile d n).isSome

/-- Fault-injection oracle: which filesystem primitive invocations fail
with an I/O error.  `createFile n` makes `File::create(n)` itself fail
(nothing on disk changes); `write n` makes the subsequent
`write_all`/`sync_all` fail, after `File::create` has already
created/truncated the file and `written n` bytes of the content have
reached it (`written n` is the full length when only `sync_all` failed). -/
structure Faults where
  createDir : Bool
  createFile : Name → Bool
  write : Name → Bool
  written : Name → Nat
  append : Name → Bool
  rename : Name → Bool
  read : Name → Bool
  remove : Name → Bool
  readDir : Bool

/-- The fault-free oracle: every filesystem operation succeeds. -/
def noFaults : Faults :=
  { createDir := false, createFile := fun _ => false,
    write := fun _ => false, written := fun _ => 0,
    append := fun _ => false, rename := fun _ => false,
    read := fun _ => false, remove := fun _ => false, readDir := false }

/-- Models `File::create(path)` followed by `write_all` + `sync_all`.  If
`File::create` fails the directory is unchanged; if the write or sync
fails afterwards, the file has already been created/truncated and holds
the prefix of the content that reached it before the failure. -/
def fsWriteFile (flt : Faults) (d : Dir) (n : Name) (c : Bytes) :
    Dir × Result Unit :=
  if flt.createFile n then (d, .error .ioFault)
  else if flt.write n then
    (setFile d n (c.take (flt.written n)), .error .ioFault)
  else (setFile d n c, .ok ())

/-- Models `OpenOptions::new().append(true).open` + `write_all` +
`sync_all`: fails if the file does not exist (no `create(true)` flag in
the source). -/
def fsAppendFile (flt : Faults) (d : Dir) (n : Name) (c : Bytes) : Result Dir :=
  if flt.append n then .error .ioFault
  else
    match getFile d n with
    | some old => .ok (setFile d n (old ++ c))
    | none => .error .notFound

/-- Models `std::fs::rename(src, dst)`: atomic, fails if `src` missing. -/
def fsRename (flt : Faults) (d : Dir) (src dst : Name) : Result Dir :=
  if flt.rename src then .error .ioFault
  else
    match getFile d src with
    | some c => .ok (setFile (removeFileD d src) dst c)
    | none => .error .notFound

/-- Models `std::fs::read` / the byte-level part of `read_to_string`. -/
def fsRead (flt : Faults) (d : Dir) (n : Name) : Result Bytes :=
  if flt.read n then .error .ioFault
  else
    match getFile d n with
    | some c => .ok c
    | none => .error .notFound

/-- Models `std::fs::remove_file`. -/
def fsRemove (flt : Faults) (d : Dir) (n : Name) : Result Dir :=
  if flt.remove n then .error .ioFault
  else if fileExists d n then .ok (removeFileD d n) else .error .notFound

/-! ### File-name constants of the source -/

/-- Source constant `VERSION_FILE` (the characters of `"version"`). -/
def VERSION_FILE : Name := ['v', 'e', 'r', 's', 'i', 'o', 'n']

/-- Source constant `NEW_VERSION_FILE` (the characters of `"new_version"`). -/
def NEW_VERSION_FILE : Name := ['n', 'e', 'w', '_', 'v', 'e', 'r', 's', 'i', 'o', 'n']

/-- Source checkpoint file name stem (the characters of `"checkpoint"`). -/
def CHECKPOINT_BASE : Name := ['c', 'h', 'e', 'c', 'k', 'p', 'o', 'i', 'n', 't']

/-- Source log file name stem (the characters of `"logfile"`). -/
def LOG_BASE : Name := ['l', 'o', 'g', 'f', 'i', 'l', 'e']

/-- Source constant `DELIM`. -/
def DELIM : Char := '.'

/-! ### Decimal rendering and parsing (models `u64::to_string` and
`str::parse::<u64>`) -/

/-- The ASCII digit character for a digit value. -/
def digitChar (dg : Nat) : Char := Char.ofNat (48 + dg)

/-- Fuel-indexed digit accumulation; with fuel at least `n` it renders
`n` exactly the way `u64::to_string` does. -/
def decCharsAux : Nat → Nat → List Char → List Char
  | 0, _, acc => acc
  | fuel + 1, n, acc =>
    if n = 0 then acc else decCharsAux fuel (n / 10) (digitChar (n % 10) :: acc)

/-- Decimal rendering of a natural number, models `u64::to_string`. -/
def decChars (n : Nat) : List Char :=
  if n = 0 then ['0'] else decCharsAux n n []

/-- Big-endian accumulation of a digit list's value. -/
def digitsVal (cs : List Char) : Nat :=
  cs.foldl (fun a c => a * 10 + (c.toNat - 48)) 0

/-- Models `str::parse::<u64>`: an optional leading `'+'`, then one or
more ASCII digits, and the value must fit in 64 bits (otherwise Rust's
parser reports overflow and the parse fails). -/
def parseU64 (cs : List Char) : Option Nat :=
  let ds := match cs with
    | c :: rest => if c = '+' then rest else cs
    | [] => []
  if ds ≠ [] ∧ ds.all Char.isDigit then
    if digitsVal ds < 2 ^ 64 then some (digitsVal ds) else none
  else none

/-- Name of the checkpoint file for a version
(`format!("{CHECKPOINT_PREFIX}{DELIM}{version}")`). -/
def checkpointName (v : Nat) : Name := CHECKPOINT_BASE ++ DELIM :: decChars v

/-- Name of the log file for a version
(`format!("{LOG_PREFIX}{DELIM}{version}")`). -/
def logName (v : Nat) : Name := LOG_BASE ++ DELIM :: decChars v

/-- Models `str::rsplit_once(delim)` on the character list of a string:
splits at the last occurrence of the delimiter. -/
def rsplitOnce (s : List Char) (c : Char) : Option (List Char × List Char) :=
  match s with
  | [] => none
  | x :: xs =>
    match rsplitOnce xs c with
    | some (b, e) => some (x :: b, e)
    | none => if x = c then some ([], xs) else none

/-! ### UTF-8 (models `str::from_utf8` validation/decoding and the byte
encoding of Rust `String`s) -/

/-- UTF-8 encoding of one Unicode scalar value. -/
def encodeChar (c : Char) : Bytes :=
  let n := c.toNat
  if n < 0x80 then [n]
  else if n < 0x800 then [0xC0 + n / 64, 0x80 + n % 64]
  else if n < 0x10000 then
    [0xE0 + n / 4096, 0x80 + n / 64 % 64, 0x80 + n % 64]
  else
    [0xF0 + n / 262144, 0x80 + n / 4096 % 64, 0x80 + n / 64 % 64, 0x80 + n % 64]

/-- UTF-8 encoding of a string (models `str::as_bytes`). -/
def utf8Encode (cs : List Char) : Bytes :=
  match cs with
  | [] => []
  | c :: rest => encodeChar c ++ utf8Encode rest

/-- Decoding of one UTF-8 scalar value: given the leading byte and the
remaining bytes, returns the character and the bytes after it.  Rejects
stray continuation bytes, overlong forms (leading bytes `0xC0`/`0xC1`,
and the range checks on the assembled scalar), surrogates and values
above `0x10FFFF`, exactly as Rust's `str::from_utf8` validation. -/
def decodeOne (b : Nat) (bs : Bytes) : Option (Char × Bytes) :=
  if b < 0x80 then some (Char.ofNat b, bs)
  else if b < 0xC2 then none
  else if b < 0xE0 then
    match bs with
    | b1 :: bs1 =>
      if 0x80 ≤ b1 ∧ b1 < 0xC0 then
        some (Char.ofNat ((b - 0xC0) * 64 + (b1 - 0x80)), bs1)
      else none
    | [] => none
  else if b < 0xF0 then
    match bs with
    | b1 :: b2 :: bs2 =>
      if 0x80 ≤ b1 ∧ b1 < 0xC0 ∧ 0x80 ≤ b2 ∧ b2 < 0xC0 then
        if 0x800 ≤ (b - 0xE0) * 4096 + (b1 - 0x80) * 64 + (b2 - 0x80) ∧
            ¬(0xD800 ≤ (b - 0xE0) * 4096 + (b1 - 0x80) * 64 + (b2 - 0x80) ∧
              (b - 0xE0) * 4096 + (b1 - 0x80) * 64 + (b2 - 0x80) < 0xE000) then
          some (Char.ofNat ((b - 0xE0) * 4096 + (b1 - 0x80) * 64 + (b2 - 0x80)),
            bs2)
        else none
      else none
    | _ => none
  else if b < 0xF5 then
    match bs with
    | b1 :: b2 :: b3 :: bs3 =>
      if 0x80 ≤ b1 ∧ b1 < 0xC0 ∧ 0x80 ≤ b2 ∧ b2 < 0xC0 ∧
          0x80 ≤ b3 ∧ b3 < 0xC0 then
        if 0x10000 ≤ (b - 0xF0) * 262144 + (b1 - 0x80) * 4096 +
              (b2 - 0x80) * 64 + (b3 - 0x80) ∧
            (b - 0xF0) * 262144 + (b1 - 0x80) * 4096 +
              (b2 - 0x80) * 64 + (b3 - 0x80) < 0x110000 then
          some (Char.ofNat ((b - 0xF0) * 262144 + (b1 - 0x80) * 4096 +
            (b2 - 0x80) * 64 + (b3 - 0x80)), bs3)
        else none
      else none
    | _ => none
  else none

/-- Fuel-indexed decoding loop; with fuel at least the byte count it
decodes the whole input. -/
def utf8DecodeAux : Nat → Bytes → Option (List Char)
  | _, [] => some []
  | 0, _ :: _ => none
  | fuel + 1, b :: bs =>
    match decodeOne b bs with
    | none => none
    | some (c, rest) =>
      match utf8DecodeAux fuel rest with
      | some cs => some (c :: cs)
      | none => none

/-- Strict UTF-8 decoding (models `str::from_utf8`): `none` exactly when
Rust's validation errors. -/
def utf8Decode (bs : Bytes) : Option (List Char) :=
  utf8DecodeAux bs.length bs

/-- Parse the content of the version pointer file: UTF-8 decoding
(`read_to_string`) followed by `parse::<u64>`; both failure modes surface
as `ErrorKind::InvalidData` in `open`. -/
def parseVersionBytes (bs : Bytes) : Option Nat :=
  match utf8Decode bs with
  | none => none
  | some cs => parseU64 cs

/-! ### The engine (`Database<T, F>`) -/

/-- The in-memory part of `Database<T, F>`: the live data value and the
version counter.  The path is implicit (the model always acts on one
directory), and the format strategy is passed explicitly. -/
structure Db (T : Type) where
  data : T
  version : Nat
deriving DecidableEq

/-- The `DataFormat` trait: serialization of full state and of update
parameter records.  The update capability `Updateable::update` is passed
separately as a function `app : T → A → T` (return values of updates are
not persisted and are dropped by the model). -/
structure DataFormat (T A : Type) where
  serialize_data : T → Result Bytes
  deserialize_data : Bytes → Result T
  serialize_params : A → Result Bytes
  deserialize_params : Bytes → Result (List A)

/-- Models `Database::create_logfile_if_required`: create the current
version's log file, empty, if it does not exist; returns its name.  On a
failure the returned directory keeps whatever `File::create` left behind
(an empty file when only `sync_all` failed). -/
def create_logfile_if_required (flt : Faults) (version : Nat) (d : Dir) :
    Dir × Result Name :=
  let filename := logName version
  if fileExists d filename then (d, .ok filename)
  else
    match fsWriteFile flt d filename [] with
    | (d1, .error e) => (d1, .error e)
    | (d1, .ok _) => (d1, .ok filename)

/-- Models `Database::extend_update_log`: ensure the log exists, serialize
the parameters, then append the bytes durably.  The returned directory
reflects every write completed before a failure. -/
def extend_update_log {T A : Type} (fmt : DataFormat T A) (flt : Faults)
    (version : Nat) (d : Dir) (params : A) : Dir × Result Unit :=
  match create_logfile_if_required flt version d with
  | (d1, .error e) => (d1, .error e)
  | (d1, .ok name) =>
    match fmt.serialize_params params with
    | .error e => (d1, .error e)
    | .ok ser =>
      match fsAppendFile flt d1 name ser with
      | .error e => (d1, .error e)
      | .ok d2 => (d2, .ok ())

/-- Models `Database::update`: durably append the serialized parameters to
the current log, and only on success apply the mutation in memory. -/
def update {T A : Type} (app : T → A → T) (fmt : DataFormat T A) (flt : Faults)
    (db : Db T) (d : Dir) (params : A) : Db T × Dir × Result Unit :=
  match extend_update_log fmt flt db.version d params with
  | (d1, .error e) => (db, d1, .error e)
  | (d1, .ok _) => ({ db with data := app db.data params }, d1, .ok ())

/-- Models `Database::write_checkpoint_file`: `File::create` truncates the
checkpoint file, then the serialized state is written and synced.  A
serialization failure thus leaves the file created empty, and a
write/sync failure leaves a partial file. -/
def write_checkpoint_file {T A : Type} (fmt : DataFormat T A) (flt : Faults)
    (db : Db T) (d : Dir) : Dir × Result Unit :=
  if flt.createFile (checkpointName db.version) then (d, .error .ioFault)
  else
    let d0 := setFile d (checkpointName db.version) []
    match fmt.serialize_data db.data with
    | .error e => (d0, .error e)
    | .ok ser =>
      if flt.write (checkpointName db.version) then
        (setFile d0 (checkpointName db.version)
          (ser.take (flt.written (checkpointName db.version))), .error .ioFault)
      else (setFile d0 (checkpointName db.version) ser, .ok ())

/-- Models `Database::update_version_file`: write the decimal version to
the staging file `new_version`, sync it, then atomically rename it over
`version`. -/
def update_version_file {T : Type} (flt : Faults) (db : Db T) (d : Dir) :
    Dir × Result Unit :=
  match fsWriteFile flt d NEW_VERSION_FILE (utf8Encode (decChars db.version)) with
  | (d1, .error e) => (d1, .error e)
  | (d1, .ok _) =>
    match fsRename flt d1 NEW_VERSION_FILE VERSION_FILE with
    | .error e => (d1, .error e)
    | .ok d2 => (d2, .ok ())

/-- Models `Database::is_outdated_file`: the staging file, or a
checkpoint/log file whose suffix parses as a `u64` strictly below the
current version. -/
def is_outdated_file (version : Nat) (filename : Name) : Bool :=
  if filename = NEW_VERSION_FILE then true
  else
    match rsplitOnce filename DELIM with
    | some (base, ext) =>
      if base = CHECKPOINT_BASE ∨ base = LOG_BASE then
        match parseU64 ext with
        | some v => decide (v < version)
        | none => false
      else false
    | none => false

/-- Iteration core of `Database::cleanup`: walk the directory snapshot,
removing every outdated file; a removal failure aborts with the error
(the `?` in the loop). -/
def cleanupAux (flt : Faults) (version : Nat) :
    List Name → Dir → Dir × Result Unit
  | [], d => (d, .ok ())
  | n :: ns, d =>
    if is_outdated_file version n then
      match fsRemove flt d n with
      | .error e => (d, .error e)
      | .ok d1 => cleanupAux flt version ns d1
    else cleanupAux flt version ns d

/-- Models `Database::cleanup`: read the directory and delete every
outdated file, stopping at the first failure. -/
def cleanup (flt : Faults) (version : Nat) (d : Dir) : Dir × Result Unit :=
  if flt.readDir then (d, .error .ioFault)
  else cleanupAux flt version (d.map Prod.fst) d

/-- Models `Database::create_checkpoint`: increment the version counter
(with `u64` wrap-around made explicit), write the new checkpoint, create
the new empty log, commit the version pointer, then best-effort cleanup
whose failure is only logged.  Note the counter is incremented before any
fallible step and is never rolled back on failure, mirroring `&mut self`. -/
def create_checkpoint {T A : Type} (fmt : DataFormat T A) (flt : Faults)
    (db : Db T) (d : Dir) : Db T × Dir × Result Unit :=
  let db1 : Db T := { db with version := (db.version + 1) % 2 ^ 64 }
  match write_checkpoint_file fmt flt db1 d with
  | (d1, .error e) => (db1, d1, .error e)
  | (d1, .ok _) =>
    match create_logfile_if_required flt db1.version d1 with
    | (d2, .error e) => (db1, d2, .error e)
    | (d2, .ok _) =>
      match update_version_file flt db1 d2 with
      | (d3, .error e) => (db1, d3, .error e)
      | (d3, .ok _) =>
        let r := cleanup flt db1.version d3
        (db1, r.1, .ok ())

/-- Models `Database::read_checkpoint_file`: read and deserialize the
current version's checkpoint into the handle. -/
def read_checkpoint_file {T A : Type} (fmt : DataFormat T A) (flt : Faults)
    (db : Db T) (d : Dir) : Result (Db T) :=
  match fsRead flt d (checkpointName db.version) with
  | .error e => .error e
  | .ok ser =>
    match fmt.deserialize_data ser with
    | .error e => .error e
    | .ok data => .ok { db with data := data }

/-- Models `Database::replay_updates`: read the current log, deserialize
the recorded parameter list, and apply each record in file order. -/
def replay_updates {T A : Type} (app : T → A → T) (fmt : DataFormat T A)
    (flt : Faults) (db : Db T) (d : Dir) : Result (Db T) :=
  match fsRead flt d (logName db.version) with
  | .error e => .error e
  | .ok ser =>
    match fmt.deserialize_params ser with
    | .error e => .error e
    | .ok updates => .ok { db with data := updates.foldl app db.data }

/-- Models `Database::open`.  The world is `none` when the path does not
exist.  Fresh path: create the directory, write checkpoint 0 for the
default state, the empty log 0 and the pointer "0".  Existing path: finish
a pending pointer rename if the staging file is present, parse the
pointer, deserialize the checkpoint, replay the log. -/
def openDb {T A : Type} (dflt : T) (app : T → A → T) (fmt : DataFormat T A)
    (flt : Faults) : Option Dir → Option Dir × Result (Db T)
  | none =>
    if flt.createDir then (none, .error .ioFault)
    else
      let db : Db T := { data := dflt, version := 0 }
      match write_checkpoint_file fmt flt db [] with
      | (d1, .error e) => (some d1, .error e)
      | (d1, .ok _) =>
        match create_logfile_if_required flt 0 d1 with
        | (d2, .error e) => (some d2, .error e)
        | (d2, .ok _) =>
          match update_version_file flt db d2 with
          | (d3, .error e) => (some d3, .error e)
          | (d3, .ok _) => (some d3, .ok db)
  | some d0 =>
    match
      (if fileExists d0 NEW_VERSION_FILE then
        fsRename flt d0 NEW_VERSION_FILE VERSION_FILE
      else .ok d0) with
    | .error e => (some d0, .error e)
    | .ok d =>
      match fsRead flt d VERSION_FILE with
      | .error e => (some d, .error e)
      | .ok vb =>
        match parseVersionBytes vb with
        | none => (some d, .error .invalidData)
        | some v =>
          match read_checkpoint_file fmt flt { data := dflt, version := v } d with
          | .error e => (some d, .error e)
          | .ok db1 =>
            match replay_updates app fmt flt db1 d with
            | .error e => (some d, .error e)
            | .ok db2 => (some d, .ok db2)

/-! ### `JsonFormat` (the default `DataFormat` implementation)

The calls into `serde_json` (`to_string` / `from_str`) are external-crate
calls and are abstracted as a codec on character strings; everything else
— the UTF-8 boundary, the newline framing, the line loop with its
skip-empty and stop-at-first-error policy — is translated from
`JsonFormat`'s source. -/

/-- The serde_json boundary: string-level (de)serialization of the state
and of one update-parameter record. -/
structure JsonCodec (T A : Type) where
  dataToString : T → Result (List Char)
  dataFromString : List Char → Result T
  paramsToString : A → Result (List Char)
  paramsFromString : List Char → Result A

/-- Models `str::split('\n')` (note `"".split('\n')` is `[""]` and a
trailing newline yields a final empty piece). -/
def splitNL : List Char → List (List Char)
  | [] => [[]]
  | c :: cs =>
    if c = '\n' then [] :: splitNL cs
    else
      match splitNL cs with
      | l :: ls => (c :: l) :: ls
      | [] => [[c]]

/-- The line loop of `JsonFormat::deserialize_params`: skip empty lines,
parse each line, and on the first parse failure return the updates
collected so far (logging an error and skipping all remaining lines). -/
def parseLines {A : Type} (fromLine : List Char → Result A) :
    List (List Char) → List A
  | [] => []
  | l :: ls =>
    if l = [] then parseLines fromLine ls
    else
      match fromLine l with
      | .ok a => a :: parseLines fromLine ls
      | .error _ => []

/-- Concatenation of lines, each terminated by `'\n'` — the shape of a
log file produced by `serialize_params` appends. -/
def joinNL : List (List Char) → List Char
  | [] => []
  | l :: ls => l ++ '\n' :: joinNL ls

/-- Models `JsonFormat` as a `DataFormat`: state bytes are the UTF-8
encoding of the serde string; each parameter record is the serde string
plus a trailing `'\n'`; deserialization validates UTF-8 for the whole
input first (`str::from_utf8`), failing with `InvalidData` if it is not
valid UTF-8. -/
def JsonFormat {T A : Type} (c : JsonCodec T A) : DataFormat T A :=
  { serialize_data := fun t =>
      match c.dataToString t with
      | .error e => .error e
      | .ok s => .ok (utf8Encode s)
    deserialize_data := fun bs =>
      match utf8Decode bs with
      | none => .error .invalidData
      | some s => c.dataFromString s
    serialize_params := fun p =>
      match c.paramsToString p with
      | .error e => .error e
      | .ok s => .ok (utf8Encode (s ++ ['\n']))
    deserialize_params := fun bs =>
      match utf8Decode bs with
      | none => .error .invalidData
      | some s => .ok (parseLines c.paramsFromString (splitNL s)) }

/-- Run a list of updates in order, stopping at the first failure
(models a caller looping over `db.update(..)?`). -/
def runUpdates {T A : Type} (app : T → A → T) (fmt : DataFormat T A)
    (flt : Faults) : Db T → Dir → List A → Db T × Dir × Result Unit
  | db, d, [] => (db, d, .ok ())
  | db, d, p :: ps =>
    match update app fmt flt db d p with
    | (db1, d1, .ok _) => runUpdates app fmt flt db1 d1 ps
    | (db1, d1, .error e) => (db1, d1, .error e)

/-! ### Concrete instances used to witness the theorems on satisfiable
inputs -/

/-- A minimal update capability: a counter with additive updates
(deterministic, as the `Updateable` contract requires). -/
def toyApp (n a : Nat) : Nat := n + a

/-- A minimal `DataFormat` whose records are single bytes; it satisfies
the round-trip and append-extension contracts of the serde boundary. -/
def toyFmt : DataFormat Nat Nat where
  serialize_data n := .ok [n]
  deserialize_data bs :=
    match bs with
    | [x] => .ok x
    | _ => .error .invalidData
  serialize_params a := .ok [a]
  deserialize_params bs := .ok bs

/-- A minimal serde-string codec for `JsonFormat`: single decimal digits. -/
def digitCodec : JsonCodec Nat Nat where
  dataToString n := if n < 10 then .ok [digitChar n] else .error .invalidData
  dataFromString cs :=
    match cs with
    | [c] => if c.isDigit then .ok (c.toNat - 48) else .error .invalidData
    | _ => .error .invalidData
  paramsToString n := if n < 10 then .ok [digitChar n] else .error .invalidData
  paramsFromString cs :=
    match cs with
    | [c] => if c.isDigit then .ok (c.toNat - 48) else .error .invalidData
    | _ => .error .invalidData

/-- Faults making the write of `checkpoint.1` fail. -/
def cpWriteFault : Faults :=
  { noFaults with write := fun n => decide (n = checkpointName 1) }

/-- Faults making every log append fail. -/
def appendFault : Faults :=
  { noFaults with append := fun _ => true }

/-- Faults making every file removal fail. -/
def removeFault : Faults :=
  { noFaults with remove := fun _ => true }

end BjwDb

deriving instance DecidableEq for Except

namespace BjwDb

/-! ### Directory lemmas -/

theorem getFile_removeFileD (d : Dir) (n m : Name) :
    getFile (removeFileD d n) m = if m = n then none else getFile d m := by
  induction d with
  | nil => simp [removeFileD, getFile]
  | cons e rest ih =>
    obtain ⟨k, c⟩ := e
    by_cases hk : k = n
    · subst hk
      rw [removeFileD, if_pos rfl, ih, getFile]
      by_cases hm : m = k
      · simp [hm]
      · have hkm : ¬k = m := fun h => hm h.symm
        simp [hm, hkm]
    · rw [removeFileD, if_neg hk, getFile, getFile, ih]
      by_cases hkm : k = m
      · subst hkm
        rw [if_pos rfl, if_pos rfl, if_neg (fun h : k = n => hk h)]
      · rw [if_neg hkm, if_neg hkm]

theorem getFile_append (d1 d2 : Dir) (m : Name) :
    getFile (d1 ++ d2) m =
      match getFile d1 m with
      | some c => some c
      | none => getFile d2 m := by
  induction d1 with
  | nil => simp [getFile]
  | cons e rest ih =>
    obtain ⟨k, c⟩ := e
    by_cases hk : k = m <;> simp [getFile, hk, ih]

theorem getFile_setFile (d : Dir) (n : Name) (c : Bytes) (m : Name) :
    getFile (setFile d n c) m = if m = n then some c else getFile d m := by
  unfold setFile
  rw [getFile_append, getFile_removeFileD]
  by_cases hm : m = n
  · simp [hm, getFile]
  · have hnm : ¬n = m := fun h => hm h.symm
    rw [if_neg hm, if_neg hm]
    cases getFile d m <;> simp [getFile, hnm]

theorem fileExists_setFile (d : Dir) (n : Name) (c : Bytes) (m : Name) :
    fileExists (setFile d n c) m = if m = n then true else fileExists d m := by
  unfold fileExists
  rw [getFile_setFile]
  by_cases hm : m = n <;> simp [hm]

/-! ### Decimal rendering / parsing lemmas -/

/-- Value of a big-endian digit list. -/
def valD (ds : List Nat) : Nat := ds.foldl (fun a dg => a * 10 + dg) 0

theorem decCharsAux_spec : ∀ (fuel n : Nat) (acc : List Char), n ≤ fuel →
    ∃ ds : List Nat, (∀ x ∈ ds, x < 10) ∧
      decCharsAux fuel n acc = ds.map digitChar ++ acc ∧
      (ds = [] ↔ n = 0) ∧ valD ds = n := by
  intro fuel
  induction fuel with
  | zero =>
    intro n acc h
    have hn : n = 0 := Nat.le_zero.mp h
    subst hn
    exact ⟨[], by simp, by simp [decCharsAux], by simp, rfl⟩
  | succ fuel ih =>
    intro n acc h
    by_cases hn : n = 0
    · subst hn
      exact ⟨[], by simp, by simp [decCharsAux], by simp, rfl⟩
    · have hle : n / 10 ≤ fuel := by omega
      obtain ⟨ds, hd, he, hz, hv⟩ := ih (n / 10) (digitChar (n % 10) :: acc) hle
      refine ⟨ds ++ [n % 10], ?_, ?_, ?_, ?_⟩
      · intro x hx
        rcases List.mem_append.mp hx with hx | hx
        · exact hd x hx
        · simp at hx; omega
      · rw [decCharsAux, if_neg hn, he]
        simp
      · simp [hn]
      · have hstep : valD (ds ++ [n % 10]) = valD ds * 10 + n % 10 := by
          unfold valD
          rw [List.foldl_append]
          rfl
        rw [hstep, hv]
        omega

theorem decChars_spec (n : Nat) :
    ∃ ds : List Nat, (∀ x ∈ ds, x < 10) ∧
      decChars n = ds.map digitChar ∧ ds ≠ [] ∧ valD ds = n := by
  by_cases hn : n = 0
  · subst hn
    exact ⟨[0], by simp, by decide, by simp, rfl⟩
  · obtain ⟨ds, hd, he, hz, hv⟩ := decCharsAux_spec n n [] (Nat.le_refl n)
    refine ⟨ds, hd, ?_, ?_, hv⟩
    · rw [decChars, if_neg hn, he]
      simp
    · intro h; exact hn (hz.mp h)

theorem toNat_digitChar {dg : Nat} (h : dg < 10) : (digitChar dg).toNat = 48 + dg := by
  interval_cases dg <;> decide

theorem isDigit_digitChar {dg : Nat} (h : dg < 10) : (digitChar dg).isDigit = true := by
  interval_cases dg <;> decide

theorem digitChar_ne_plus {dg : Nat} (h : dg < 10) : digitChar dg ≠ '+' := by
  interval_cases dg <;> decide

theorem digitChar_ne_delim {dg : Nat} (h : dg < 10) : digitChar dg ≠ DELIM := by
  interval_cases dg <;> decide

theorem digitChar_ne_newline {dg : Nat} (h : dg < 10) : digitChar dg ≠ '\n' := by
  interval_cases dg <;> decide

theorem foldl_digitChar_eq (ds : List Nat) (hd : ∀ x ∈ ds, x < 10) :
    ∀ a, ds.foldl (fun x dg => x * 10 + ((digitChar dg).toNat - 48)) a
      = ds.foldl (fun x dg => x * 10 + dg) a := by
  induction ds with
  | nil => intro a; rfl
  | cons dg rest ih =>
    intro a
    have h1 : (digitChar dg).toNat = 48 + dg := toNat_digitChar (hd dg (by simp))
    simp only [List.foldl_cons, h1]
    have h2 : a * 10 + (48 + dg - 48) = a * 10 + dg := by omega
    rw [h2]
    exact ih (fun x hx => hd x (by simp [hx])) _

theorem digitsVal_map (ds : List Nat) (hd : ∀ x ∈ ds, x < 10) :
    digitsVal (ds.map digitChar) = valD ds := by
  unfold digitsVal valD
  rw [List.foldl_map]
  exact foldl_digitChar_eq ds hd 0

theorem all_isDigit_map (ds : List Nat) (hd : ∀ x ∈ ds, x < 10) :
    (ds.map digitChar).all Char.isDigit = true := by
  rw [List.all_eq_true]
  intro c hc
  rw [List.mem_map] at hc
  obtain ⟨dg, hdg, rfl⟩ := hc
  exact isDigit_digitChar (hd dg hdg)

theorem parseU64_decChars (n : Nat) :
    parseU64 (decChars n) = if n < 2 ^ 64 then some n else none := by
  obtain ⟨ds, hd, he, hz, hv⟩ := decChars_spec n
  rw [he]
  obtain ⟨d0, rest, rfl⟩ : ∃ d0 rest, ds = d0 :: rest := by
    cases ds with
    | nil => exact absurd rfl hz
    | cons d0 rest => exact ⟨d0, rest, rfl⟩
  have hne : digitChar d0 ≠ '+' := digitChar_ne_plus (hd d0 (by simp))
  unfold parseU64
  simp only [List.map_cons, if_neg hne]
  have hall : ((d0 :: rest).map digitChar).all Char.isDigit = true :=
    all_isDigit_map _ hd
  simp only [List.map_cons] at hall
  rw [if_pos ⟨by simp, hall⟩]
  have hval : digitsVal (digitChar d0 :: rest.map digitChar) = n := by
    have := digitsVal_map (d0 :: rest) hd
    simpa using this.trans hv
  rw [hval]

theorem delim_not_mem_decChars (n : Nat) : DELIM ∉ decChars n := by
  obtain ⟨ds, hd, he, _, _⟩ := decChars_spec n
  rw [he]
  intro hmem
  rw [List.mem_map] at hmem
  obtain ⟨dg, hdg, heq⟩ := hmem
  exact digitChar_ne_delim (hd dg hdg) heq

theorem newline_not_mem_decChars (n : Nat) : '\n' ∉ decChars n := by
  obtain ⟨ds, hd, he, _, _⟩ := decChars_spec n
  rw [he]
  intro hmem
  rw [List.mem_map] at hmem
  obtain ⟨dg, hdg, heq⟩ := hmem
  exact digitChar_ne_newline (hd dg hdg) heq

/-! ### File-name disjointness -/

theorem checkpointName_ne_VERSION (v : Nat) : checkpointName v ≠ VERSION_FILE := by
  intro h
  have h0 := congrArg List.head? h
  simp [checkpointName, CHECKPOINT_BASE, VERSION_FILE] at h0

theorem checkpointName_ne_NEW_VERSION (v : Nat) :
    checkpointName v ≠ NEW_VERSION_FILE := by
  intro h
  have h0 := congrArg List.head? h
  simp [checkpointName, CHECKPOINT_BASE, NEW_VERSION_FILE] at h0

theorem logName_ne_VERSION (v : Nat) : logName v ≠ VERSION_FILE := by
  intro h
  have h0 := congrArg List.head? h
  simp [logName, LOG_BASE, VERSION_FILE] at h0

theorem logName_ne_NEW_VERSION (v : Nat) : logName v ≠ NEW_VERSION_FILE := by
  intro h
  have h0 := congrArg List.head? h
  simp [logName, LOG_BASE, NEW_VERSION_FILE] at h0

theorem checkpointName_ne_logName (v w : Nat) : checkpointName v ≠ logName w := by
  intro h
  have h0 := congrArg List.head? h
  simp [checkpointName, CHECKPOINT_BASE, logName, LOG_BASE] at h0

theorem NEW_VERSION_ne_VERSION : NEW_VERSION_FILE ≠ VERSION_FILE := by decide

/-! ### `rsplit_once` lemmas -/

theorem rsplitOnce_eq_none {s : List Char} {c : Char} (h : c ∉ s) :
    rsplitOnce s c = none := by
  induction s with
  | nil => rfl
  | cons x xs ih =>
    have hx : x ≠ c := fun he => h (he ▸ List.mem_cons_self x xs)
    have hxs : c ∉ xs := fun hm => h (List.mem_cons_of_mem x hm)
    rw [rsplitOnce, ih hxs, if_neg hx]

theorem rsplitOnce_append {xs ys : List Char} {c : Char} (h : c ∉ ys) :
    rsplitOnce (xs ++ c :: ys) c = some (xs, ys) := by
  induction xs with
  | nil =>
    rw [List.nil_append, rsplitOnce, rsplitOnce_eq_none h, if_pos rfl]
  | cons x rest ih =>
    rw [List.cons_append, rsplitOnce, ih]

/-! ### `is_outdated_file` characterization -/

theorem is_outdated_VERSION (v : Nat) : is_outdated_file v VERSION_FILE = false := by
  rw [is_outdated_file, if_neg (by decide : VERSION_FILE ≠ NEW_VERSION_FILE)]
  have hr : rsplitOnce VERSION_FILE DELIM = none := by decide
  rw [hr]

theorem is_outdated_NEW_VERSION (v : Nat) :
    is_outdated_file v NEW_VERSION_FILE = true := by
  rw [is_outdated_file, if_pos rfl]

theorem rsplitOnce_checkpointName (v : Nat) :
    rsplitOnce (checkpointName v) DELIM = some (CHECKPOINT_BASE, decChars v) :=
  rsplitOnce_append (delim_not_mem_decChars v)

theorem rsplitOnce_logName (v : Nat) :
    rsplitOnce (logName v) DELIM = some (LOG_BASE, decChars v) :=
  rsplitOnce_append (delim_not_mem_decChars v)

theorem is_outdated_checkpointName (v w : Nat) :
    is_outdated_file v (checkpointName w)
      = (decide (w < 2 ^ 64) && decide (w < v)) := by
  simp only [is_outdated_file, if_neg (checkpointName_ne_NEW_VERSION w),
    rsplitOnce_checkpointName, parseU64_decChars, eq_self_iff_true, true_or,
    or_true, if_true]
  by_cases hw : w < 2 ^ 64
  · rw [if_pos hw]
    simp [hw] <;> omega
  · rw [if_neg hw]
    simp [hw] <;> omega

theorem is_outdated_logName (v w : Nat) :
    is_outdated_file v (logName w)
      = (decide (w < 2 ^ 64) && decide (w < v)) := by
  simp only [is_outdated_file, if_neg (logName_ne_NEW_VERSION w),
    rsplitOnce_logName, parseU64_decChars, eq_self_iff_true, true_or,
    or_true, if_true]
  by_cases hw : w < 2 ^ 64
  · rw [if_pos hw]
    simp [hw] <;> omega
  · rw [if_neg hw]
    simp [hw] <;> omega

/-! ### Inversion lemmas for the filesystem primitives -/

theorem removeFileD_append (d1 d2 : Dir) (n : Name) :
    removeFileD (d1 ++ d2) n = removeFileD d1 n ++ removeFileD d2 n := by
  induction d1 with
  | nil => rfl
  | cons e rest ih =>
    obtain ⟨k, c⟩ := e
    by_cases hk : k = n
    · rw [List.cons_append, removeFileD, if_pos hk, removeFileD, if_pos hk, ih]
    · rw [List.cons_append, removeFileD, if_neg hk, removeFileD, if_neg hk, ih,
        List.cons_append]

theorem removeFileD_idem (d : Dir) (n : Name) :
    removeFileD (removeFileD d n) n = removeFileD d n := by
  induction d with
  | nil => rfl
  | cons e rest ih =>
    obtain ⟨k, c⟩ := e
    by_cases hk : k = n
    · rw [removeFileD, if_pos hk, ih]
    · rw [removeFileD, if_neg hk, removeFileD, if_neg hk, ih]

theorem setFile_setFile (d : Dir) (n : Name) (c c' : Bytes) :
    setFile (setFile d n c) n c' = setFile d n c' := by
  unfold setFile
  rw [removeFileD_append, removeFileD_idem, removeFileD, if_pos rfl,
    removeFileD, List.append_nil]

theorem fsWriteFile_ok {flt : Faults} {d : Dir} {n : Name} {c : Bytes}
    {d1 : Dir} {u : Unit} (h : fsWriteFile flt d n c = (d1, .ok u)) :
    d1 = setFile d n c := by
  unfold fsWriteFile at h
  split at h
  · cases h
  · split at h
    · cases h
    · injection h with h1 h2
      exact h1.symm

theorem fsWriteFile_dir {flt : Faults} {d : Dir} {n : Name} {c : Bytes}
    {d1 : Dir} {r : Result Unit} (h : fsWriteFile flt d n c = (d1, r)) :
    ∀ m, m ≠ n → getFile d1 m = getFile d m := by
  unfold fsWriteFile at h
  split at h
  · injection h with h1 h2
    subst h1
    intro m _
    rfl
  · split at h <;>
      (injection h with h1 h2
       subst h1
       intro m hm
       rw [getFile_setFile, if_neg hm])

theorem fsAppendFile_ok {flt : Faults} {d : Dir} {n : Name} {c : Bytes} {d1 : Dir}
    (h : fsAppendFile flt d n c = .ok d1) :
    ∃ old, getFile d n = some old ∧ d1 = setFile d n (old ++ c) := by
  unfold fsAppendFile at h
  split at h
  · cases h
  · split at h
    · cases h
      exact ⟨_, ‹getFile d n = some _›, rfl⟩
    · cases h

theorem fsRename_ok {flt : Faults} {d : Dir} {src dst : Name} {d1 : Dir}
    (h : fsRename flt d src dst = .ok d1) :
    ∃ c, getFile d src = some c ∧ d1 = setFile (removeFileD d src) dst c := by
  unfold fsRename at h
  split at h
  · cases h
  · split at h
    · cases h
      exact ⟨_, ‹getFile d src = some _›, rfl⟩
    · cases h

theorem fsRead_ok {flt : Faults} {d : Dir} {n : Name} {c : Bytes}
    (h : fsRead flt d n = .ok c) : getFile d n = some c := by
  unfold fsRead at h
  split at h
  · cases h
  · split at h
    · cases h
      assumption
    · cases h

theorem fsRemove_ok {flt : Faults} {d : Dir} {n : Name} {d1 : Dir}
    (h : fsRemove flt d n = .ok d1) : d1 = removeFileD d n := by
  unfold fsRemove at h
  split at h
  · cases h
  · split at h
    · cases h
      rfl
    · cases h

/-! ### Cleanup lemmas -/

theorem removeFileD_eq_filter (d : Dir) (n : Name) :
    removeFileD d n = d.filter (fun e => !(decide (e.1 = n))) := by
  induction d with
  | nil => rfl
  | cons e rest ih =>
    obtain ⟨k, c⟩ := e
    by_cases hk : k = n
    · rw [removeFileD, if_pos hk, ih]
      simp [hk, List.filter]
    · rw [removeFileD, if_neg hk, ih]
      simp [hk, List.filter]

theorem cleanupAux_preserves {flt : Faults} {v : Nat} {n : Name}
    (hn : is_outdated_file v n = false) :
    ∀ (ns : List Name) (d : Dir),
      getFile (cleanupAux flt v ns d).1 n = getFile d n := by
  intro ns
  induction ns with
  | nil => intro d; rfl
  | cons m ms ih =>
    intro d
    rw [cleanupAux]
    by_cases hm : is_outdated_file v m = true
    · rw [if_pos hm]
      cases hr : fsRemove flt d m with
      | error e => rfl
      | ok d1 =>
        have hd1 : d1 = removeFileD d m := fsRemove_ok hr
        have hmn : ¬n = m := fun he => by rw [he, hm] at hn; cases hn
        rw [ih, hd1, getFile_removeFileD, if_neg hmn]
    · rw [if_neg hm]
      exact ih d

theorem cleanup_preserves {flt : Faults} {v : Nat} {n : Name} (d : Dir)
    (hn : is_outdated_file v n = false) :
    getFile (cleanup flt v d).1 n = getFile d n := by
  unfold cleanup
  split
  · rfl
  · exact cleanupAux_preserves hn _ d

theorem cleanupAux_noFaults (v : Nat) :
    ∀ (ns : List Name) (d : Dir), ns.Nodup →
      (∀ n ∈ ns, fileExists d n = true) →
      cleanupAux noFaults v ns d =
        (d.filter (fun e => !(decide (e.1 ∈ ns) && is_outdated_file v e.1)),
          .ok ()) := by
  intro ns
  induction ns with
  | nil =>
    intro d _ _
    rw [cleanupAux]
    congr 1
    rw [List.filter_eq_self.mpr]
    intro e _
    simp
  | cons m ms ih =>
    intro d hnd hex
    have hmnotin : m ∉ ms := (List.nodup_cons.mp hnd).1
    have hmsnd : ms.Nodup := (List.nodup_cons.mp hnd).2
    rw [cleanupAux]
    by_cases hm : is_outdated_file v m = true
    · rw [if_pos hm]
      have hrm : fsRemove noFaults d m = .ok (removeFileD d m) := by
        unfold fsRemove
        rw [if_neg (by simp [noFaults]), if_pos (hex m (List.mem_cons_self m ms))]
      rw [hrm]
      show cleanupAux noFaults v ms (removeFileD d m) =
        (d.filter (fun e => !(decide (e.1 ∈ m :: ms) && is_outdated_file v e.1)),
          .ok ())
      have hex2 : ∀ n ∈ ms, fileExists (removeFileD d m) n = true := by
        intro n hnms
        have hne : ¬n = m := fun he => hmnotin (he ▸ hnms)
        unfold fileExists
        rw [getFile_removeFileD, if_neg hne]
        exact hex n (List.mem_cons_of_mem m hnms)
      rw [ih (removeFileD d m) hmsnd hex2]
      congr 1
      rw [removeFileD_eq_filter, List.filter_filter]
      apply List.filter_congr
      intro e _
      by_cases he : e.1 = m
      · simp [he, hm]
      · simp [he]
    · rw [if_neg hm]
      rw [ih d hmsnd (fun n hn => hex n (List.mem_cons_of_mem m hn))]
      congr 1
      apply List.filter_congr
      intro e _
      by_cases he : e.1 = m
      · rw [he]
        simp at hm
        simp [hm]
      · simp [he]

theorem getFile_of_mem_nodup {d : Dir} {e : Name × Bytes}
    (hnd : (d.map Prod.fst).Nodup) (he : e ∈ d) : getFile d e.1 = some e.2 := by
  induction d with
  | nil => cases he
  | cons e0 rest ih =>
    rcases List.mem_cons.mp he with he | he
    · rw [he, getFile]
      simp
    · rw [getFile]
      rw [List.map_cons, List.nodup_cons] at hnd
      by_cases h0 : e0.1 = e.1
      · exact absurd (h0 ▸ List.mem_map_of_mem Prod.fst he) hnd.1
      · rw [if_neg h0]
        exact ih hnd.2 he

theorem cleanup_noFaults (v : Nat) (d : Dir) (hnd : (d.map Prod.fst).Nodup) :
    cleanup noFaults v d =
      (d.filter (fun e => !is_outdated_file v e.1), .ok ()) := by
  unfold cleanup
  rw [if_neg (by simp [noFaults])]
  rw [cleanupAux_noFaults v (d.map Prod.fst) d hnd]
  · congr 1
    apply List.filter_congr
    intro e he
    have hmem : e.1 ∈ d.map Prod.fst := List.mem_map_of_mem Prod.fst he
    simp [hmem]
  · intro n hn
    rw [List.mem_map] at hn
    obtain ⟨e, he, rfl⟩ := hn
    unfold fileExists
    rw [getFile_of_mem_nodup hnd he]
    rfl

/-! ### The recovery invariant -/

/-- The configuration invariant tying the directory to the handle: no
staging file, the pointer parses to the handle's version, and the handle's
data is the checkpoint state with the logged records applied in order. -/
structure Good {T A : Type} (app : T → A → T) (fmt : DataFormat T A)
    (d : Dir) (db : Db T) : Prop where
  noStaging : getFile d NEW_VERSION_FILE = none
  version : ∃ vb, getFile d VERSION_FILE = some vb ∧
    parseVersionBytes vb = some db.version
  content : ∃ cb t0 lb us0,
    getFile d (checkpointName db.version) = some cb ∧
    fmt.deserialize_data cb = .ok t0 ∧
    getFile d (logName db.version) = some lb ∧
    fmt.deserialize_params lb = .ok us0 ∧
    db.data = us0.foldl app t0

theorem good_reopen {T A : Type} {dflt : T} {app : T → A → T}
    {fmt : DataFormat T A} {d : Dir} {db : Db T} (hg : Good app fmt d db) :
    openDb dflt app fmt noFaults (some d) = (some d, .ok db) := by
  obtain ⟨hns, ⟨vb, hvb, hparse⟩, ⟨cb, t0, lb, us0, hcb, hde, hlb, hdp, hdata⟩⟩ := hg
  have hex : fileExists d NEW_VERSION_FILE = false := by
    unfold fileExists
    rw [hns]
    rfl
  have hrv : fsRead noFaults d VERSION_FILE = .ok vb := by
    unfold fsRead
    rw [if_neg (by simp [noFaults]), hvb]
  have hrc : read_checkpoint_file fmt noFaults
      (⟨dflt, db.version⟩ : Db T) d = .ok ⟨t0, db.version⟩ := by
    unfold read_checkpoint_file
    have hrd : fsRead noFaults d (checkpointName db.version) = .ok cb := by
      unfold fsRead
      rw [if_neg (by simp [noFaults]), hcb]
    simp only [hrd, hde]
  have hrp : replay_updates app fmt noFaults (⟨t0, db.version⟩ : Db T) d
      = .ok ⟨us0.foldl app t0, db.version⟩ := by
    unfold replay_updates
    have hrd : fsRead noFaults d (logName db.version) = .ok lb := by
      unfold fsRead
      rw [if_neg (by simp [noFaults]), hlb]
    simp only [hrd, hdp]
  have hdb : (⟨us0.foldl app t0, db.version⟩ : Db T) = db := by
    cases db
    simp at hdata ⊢
    exact hdata.symm
  simp only [openDb, hex, Bool.false_eq_true, if_neg, if_false, hrv, hparse,
    hrc, hrp, hdb]

theorem update_error {T A : Type} {app : T → A → T} {fmt : DataFormat T A}
    {flt : Faults} {db : Db T} {d : Dir} {p : A} {db1 : Db T} {d1 : Dir}
    {e : DbError} (h : update app fmt flt db d p = (db1, d1, .error e)) :
    db1 = db := by
  unfold update at h
  cases hx : extend_update_log fmt flt db.version d p with
  | mk dx rx =>
    rw [hx] at h
    cases rx with
    | error e0 => cases h; rfl
    | ok u => cases h

theorem create_logfile_if_required_ok {flt : Faults} {v : Nat} {d d0 : Dir}
    {name : Name} (h : create_logfile_if_required flt v d = (d0, .ok name)) :
    name = logName v ∧
    ∃ old, (getFile d (logName v) = some old ∨
      (getFile d (logName v) = none ∧ old = [])) ∧
    getFile d0 (logName v) = some old ∧
    ∀ n, n ≠ logName v → getFile d0 n = getFile d n := by
  unfold create_logfile_if_required at h
  simp only [] at h
  split at h
  · rename_i hex
    injection h with h1 h2
    subst h1
    injection h2 with h2
    obtain ⟨old, hold⟩ : ∃ old, getFile d (logName v) = some old := by
      unfold fileExists at hex
      cases hg : getFile d (logName v) with
      | none => rw [hg] at hex; cases hex
      | some o => exact ⟨o, rfl⟩
    exact ⟨h2.symm, old, Or.inl hold, hold, fun n _ => rfl⟩
  · rename_i hex
    split at h
    · simp at h
    · rename_i dx u hw
      injection h with h1 h2
      subst h1
      injection h2 with h2
      have hd1 := fsWriteFile_ok hw
      have hnone : getFile d (logName v) = none := by
        unfold fileExists at hex
        cases hg : getFile d (logName v) with
        | none => rfl
        | some o => rw [hg] at hex; simp at hex
      refine ⟨h2.symm, [], Or.inr ⟨hnone, rfl⟩, ?_, ?_⟩
      · rw [hd1, getFile_setFile, if_pos rfl]
      · intro n hn
        rw [hd1, getFile_setFile, if_neg hn]

theorem create_logfile_if_required_dir {flt : Faults} {v : Nat} {d d2 : Dir}
    {r : Result Name} (h : create_logfile_if_required flt v d = (d2, r)) :
    ∀ n, n ≠ logName v → getFile d2 n = getFile d n := by
  unfold create_logfile_if_required at h
  simp only [] at h
  split at h
  · injection h with h1 h2
    subst h1
    intro n _
    rfl
  · split at h <;>
      (rename_i dx u hw
       injection h with h1 h2
       subst h1
       exact fun n hn => fsWriteFile_dir hw n hn)

theorem extend_update_log_ok {T A : Type} {fmt : DataFormat T A} {flt : Faults}
    {v : Nat} {d : Dir} {p : A} {d1 : Dir}
    (h : extend_update_log fmt flt v d p = (d1, .ok ())) :
    ∃ ser old, fmt.serialize_params p = .ok ser ∧
      (getFile d (logName v) = some old ∨
        (getFile d (logName v) = none ∧ old = [])) ∧
      getFile d1 (logName v) = some (old ++ ser) ∧
      ∀ n, n ≠ logName v → getFile d1 n = getFile d n := by
  unfold extend_update_log at h
  split at h
  · simp at h
  · rename_i d0 name hc
    obtain ⟨hname, old, hold, hd0log, hd0rest⟩ := create_logfile_if_required_ok hc
    subst hname
    split at h
    · simp at h
    · rename_i ser hs
      split at h
      · simp at h
      · rename_i d2 ha
        injection h with h1 h2
        subst h1
        obtain ⟨old2, hold2, hd2⟩ := fsAppendFile_ok ha
        rw [hd0log] at hold2
        cases hold2
        refine ⟨ser, old, hs, hold, ?_, ?_⟩
        · rw [hd2, getFile_setFile, if_pos rfl]
        · intro n hn
          rw [hd2, getFile_setFile, if_neg hn, hd0rest n hn]

theorem update_ok {T A : Type} {app : T → A → T} {fmt : DataFormat T A}
    {flt : Faults} {db : Db T} {d : Dir} {p : A} {db1 : Db T} {d1 : Dir}
    {u : Unit} (h : update app fmt flt db d p = (db1, d1, .ok u)) :
    db1 = { db with data := app db.data p } ∧
    ∃ ser old, fmt.serialize_params p = .ok ser ∧
      (getFile d (logName db.version) = some old ∨
        (getFile d (logName db.version) = none ∧ old = [])) ∧
      getFile d1 (logName db.version) = some (old ++ ser) ∧
      ∀ n, n ≠ logName db.version → getFile d1 n = getFile d n := by
  unfold update at h
  cases hx : extend_update_log fmt flt db.version d p with
  | mk dx rx =>
    rw [hx] at h
    cases rx with
    | error e0 => cases h
    | ok u0 =>
      cases h
      exact ⟨rfl, extend_update_log_ok hx⟩

theorem write_checkpoint_file_ok {T A : Type} {fmt : DataFormat T A}
    {flt : Faults} {db : Db T} {d d1 : Dir}
    (h : write_checkpoint_file fmt flt db d = (d1, .ok ())) :
    ∃ ser, fmt.serialize_data db.data = .ok ser ∧
      d1 = setFile d (checkpointName db.version) ser := by
  unfold write_checkpoint_file at h
  simp only [] at h
  split at h
  · simp at h
  · split at h
    · simp at h
    · rename_i ser hs
      split at h
      · simp at h
      · injection h with h1 h2
        subst h1
        exact ⟨ser, hs, setFile_setFile d (checkpointName db.version) [] ser⟩

theorem update_version_file_ok {T : Type} {flt : Faults} {db : Db T}
    {d d1 : Dir} (h : update_version_file flt db d = (d1, .ok ())) :
    getFile d1 VERSION_FILE = some (utf8Encode (decChars db.version)) ∧
    getFile d1 NEW_VERSION_FILE = none ∧
    ∀ n, n ≠ VERSION_FILE → n ≠ NEW_VERSION_FILE → getFile d1 n = getFile d n := by
  unfold update_version_file at h
  split at h
  · simp at h
  · rename_i d0 u hw
    have hd0 := fsWriteFile_ok hw
    split at h
    · simp at h
    · rename_i d2 hr
      injection h with h1 h2
      subst h1
      obtain ⟨c, hc, hd2⟩ := fsRename_ok hr
      rw [hd0, getFile_setFile, if_pos rfl] at hc
      injection hc with hc
      subst hc
      refine ⟨?_, ?_, ?_⟩
      · rw [hd2, getFile_setFile, if_pos rfl]
      · rw [hd2, getFile_setFile, if_neg NEW_VERSION_ne_VERSION,
          getFile_removeFileD, if_pos rfl]
      · intro n hnv hnn
        rw [hd2, getFile_setFile, if_neg hnv, getFile_removeFileD, if_neg hnn,
          hd0, getFile_setFile, if_neg hnn]

theorem read_checkpoint_file_ok {T A : Type} {fmt : DataFormat T A}
    {flt : Faults} {db : Db T} {d : Dir} {db1 : Db T}
    (h : read_checkpoint_file fmt flt db d = .ok db1) :
    ∃ cb t0, getFile d (checkpointName db.version) = some cb ∧
      fmt.deserialize_data cb = .ok t0 ∧ db1 = { db with data := t0 } := by
  unfold read_checkpoint_file at h
  split at h
  · cases h
  · rename_i cb hr
    split at h
    · cases h
    · rename_i t0 hde
      cases h
      exact ⟨cb, t0, fsRead_ok hr, hde, rfl⟩

theorem replay_updates_ok {T A : Type} {app : T → A → T} {fmt : DataFormat T A}
    {flt : Faults} {db : Db T} {d : Dir} {db2 : Db T}
    (h : replay_updates app fmt flt db d = .ok db2) :
    ∃ lb us, getFile d (logName db.version) = some lb ∧
      fmt.deserialize_params lb = .ok us ∧
      db2 = { db with data := us.foldl app db.data } := by
  unfold replay_updates at h
  split at h
  · cases h
  · rename_i lb hr
    split at h
    · cases h
    · rename_i us hdp
      cases h
      exact ⟨lb, us, fsRead_ok hr, hdp, rfl⟩

theorem good_update {T A : Type} {app : T → A → T} {fmt : DataFormat T A}
    {flt : Faults} {db : Db T} {d : Dir} {p : A} {db1 : Db T} {d1 : Dir}
    {u : Unit}
    (Happ : ∀ (bs : Bytes) (us : List A) (q : A) (ser : Bytes),
      fmt.deserialize_params bs = .ok us → fmt.serialize_params q = .ok ser →
      fmt.deserialize_params (bs ++ ser) = .ok (us ++ [q]))
    (h : update app fmt flt db d p = (db1, d1, .ok u))
    (hg : Good app fmt d db) : Good app fmt d1 db1 := by
  obtain ⟨hdb1, ser, old, hser, hold, hlog1, hrest⟩ := update_ok h
  obtain ⟨hns, ⟨vb, hvb, hparse⟩, ⟨cb, t0, lb, us0, hcb, hde, hlb, hdp, hdata⟩⟩ := hg
  have holdlb : old = lb := by
    rcases hold with hsome | ⟨hnone, _⟩
    · rw [hlb] at hsome
      injection hsome with hx
      exact hx.symm
    · rw [hlb] at hnone
      cases hnone
  subst holdlb
  subst hdb1
  constructor
  · rw [hrest NEW_VERSION_FILE
      (fun he => logName_ne_NEW_VERSION db.version he.symm)]
    exact hns
  · exact ⟨vb, by
      rw [hrest VERSION_FILE (fun he => logName_ne_VERSION db.version he.symm)]
      exact hvb, hparse⟩
  · refine ⟨cb, t0, old ++ ser, us0 ++ [p], ?_, hde, hlog1, ?_, ?_⟩
    · rw [hrest (checkpointName db.version)
        (checkpointName_ne_logName db.version db.version)]
      exact hcb
    · exact Happ old us0 p ser hdp hser
    · rw [List.foldl_append, List.foldl_cons, List.foldl_nil, hdata]

theorem removeFileD_of_not_mem {d : Dir} {n : Name}
    (h : ∀ e ∈ d, e.1 ≠ n) : removeFileD d n = d := by
  induction d with
  | nil => rfl
  | cons e rest ih =>
    rw [removeFileD, if_neg (h e (List.mem_cons_self e rest))]
    rw [ih (fun x hx => h x (List.mem_cons_of_mem e hx))]

theorem openDb_none_ok {T A : Type} {dflt : T} {app : T → A → T}
    {fmt : DataFormat T A} {flt : Faults} {w' : Option Dir} {db : Db T}
    (h : openDb dflt app fmt flt none = (w', .ok db)) :
    db = ⟨dflt, 0⟩ ∧ ∃ ser, fmt.serialize_data dflt = .ok ser ∧
      w' = some [(checkpointName 0, ser), (logName 0, []),
        (VERSION_FILE, utf8Encode (decChars 0))] := by
  simp only [openDb] at h
  split at h
  · simp at h
  · split at h
    · simp at h
    · rename_i dW uW hw
      split at h
      · simp at h
      · rename_i pr d2 name hc
        split at h
        · simp at h
        · rename_i dU uU hu
          injection h with h1 h2
          obtain ⟨ser, hser, hd1⟩ := write_checkpoint_file_ok hw
          have hd1c : dW = [(checkpointName 0, ser)] := by
            rw [hd1]
            rfl
          subst hd1c
          have hnex : fileExists [(checkpointName 0, ser)] (logName 0) = false := by
            unfold fileExists getFile
            rw [if_neg (checkpointName_ne_logName 0 0)]
            rfl
          have hc2 : d2 = [(checkpointName 0, ser), (logName 0, [])] := by
            unfold create_logfile_if_required at hc
            simp only [hnex, Bool.false_eq_true, if_false] at hc
            split at hc
            · simp at hc
            · rename_i dx u hfw
              injection hc with hca hcb
              have hdx := fsWriteFile_ok hfw
              rw [← hca, hdx]
              simp [setFile, removeFileD, checkpointName_ne_logName 0 0]
          subst hc2
          have hd3c : dU = [(checkpointName 0, ser), (logName 0, []),
              (VERSION_FILE, utf8Encode (decChars 0))] := by
            unfold update_version_file at hu
            split at hu
            · simp at hu
            · rename_i dx u hfw
              have hdx := fsWriteFile_ok hfw
              have hdxc : dx = [(checkpointName 0, ser), (logName 0, []),
                  (NEW_VERSION_FILE, utf8Encode (decChars 0))] := by
                rw [hdx]
                simp [setFile, removeFileD, checkpointName_ne_NEW_VERSION 0,
                  logName_ne_NEW_VERSION 0]
              subst hdxc
              split at hu
              · simp at hu
              · rename_i dy hfr
                injection hu with hu1 hu2
                rw [← hu1]
                obtain ⟨cy, hcy, hdy⟩ := fsRename_ok hfr
                have hcyv : cy = utf8Encode (decChars 0) := by
                  rw [getFile, if_neg (checkpointName_ne_NEW_VERSION 0),
                    getFile, if_neg (logName_ne_NEW_VERSION 0),
                    getFile, if_pos rfl] at hcy
                  injection hcy with hcy
                  exact hcy.symm
                subst hcyv
                rw [hdy]
                simp [setFile, removeFileD, checkpointName_ne_NEW_VERSION 0,
                  logName_ne_NEW_VERSION 0, checkpointName_ne_VERSION 0,
                  logName_ne_VERSION 0]
          subst hd3c
          constructor
          · injection h2 with h2x
            exact h2x.symm
          · exact ⟨ser, hser, h1.symm⟩

theorem openDb_some_ok {T A : Type} {dflt : T} {app : T → A → T}
    {fmt : DataFormat T A} {flt : Faults} {d0 : Dir} {w' : Option Dir}
    {db : Db T} (h : openDb dflt app fmt flt (some d0) = (w', .ok db)) :
    ∃ d, w' = some d ∧
      ((fileExists d0 NEW_VERSION_FILE = false ∧ d = d0) ∨
        (∃ nb, getFile d0 NEW_VERSION_FILE = some nb ∧
          d = setFile (removeFileD d0 NEW_VERSION_FILE) VERSION_FILE nb)) ∧
      (∃ vb, getFile d VERSION_FILE = some vb ∧
        parseVersionBytes vb = some db.version) ∧
      ∃ cb t0 lb us0,
        getFile d (checkpointName db.version) = some cb ∧
        fmt.deserialize_data cb = .ok t0 ∧
        getFile d (logName db.version) = some lb ∧
        fmt.deserialize_params lb = .ok us0 ∧
        db.data = us0.foldl app t0 := by
  simp only [openDb] at h
  split at h
  · simp at h
  · rename_i d hrn
    split at h
    · simp at h
    · rename_i vb hrv
      split at h
      · simp at h
      · rename_i v hpv
        split at h
        · simp at h
        · rename_i db1 hrc
          split at h
          · simp at h
          · rename_i db2 hrp
            injection h with h1 h2
            injection h2 with h2
            subst h2
            obtain ⟨cb, t0, hcb, hde, hdb1⟩ := read_checkpoint_file_ok hrc
            subst hdb1
            obtain ⟨lb, us0, hlb, hdp, hdb2⟩ := replay_updates_ok hrp
            subst hdb2
            refine ⟨d, h1.symm, ?_, ⟨vb, fsRead_ok hrv, hpv⟩, cb, t0, lb, us0,
              hcb, hde, hlb, hdp, rfl⟩
            by_cases hex : fileExists d0 NEW_VERSION_FILE = true
            · rw [if_pos hex] at hrn
              obtain ⟨nb, hnb, hd⟩ := fsRename_ok hrn
              exact Or.inr ⟨nb, hnb, hd⟩
            · rw [if_neg hex] at hrn
              injection hrn with hrn
              exact Or.inl ⟨by simpa using hex, hrn.symm⟩

theorem good_open {T A : Type} {dflt : T} {app : T → A → T}
    {fmt : DataFormat T A} {w : Option Dir} {d : Dir} {db : Db T}
    (HrtData : ∀ (t : T) (bs : Bytes),
      fmt.serialize_data t = .ok bs → fmt.deserialize_data bs = .ok t)
    (Hempty : fmt.deserialize_params [] = .ok [])
    (h : openDb dflt app fmt noFaults w = (some d, .ok db)) :
    Good app fmt d db := by
  cases w with
  | none =>
    obtain ⟨hdb, ser, hser, hw⟩ := openDb_none_ok h
    injection hw with hw
    subst hw
    subst hdb
    constructor
    · rw [getFile, if_neg (checkpointName_ne_NEW_VERSION 0),
        getFile, if_neg (logName_ne_NEW_VERSION 0),
        getFile, if_neg (fun he => NEW_VERSION_ne_VERSION he.symm), getFile]
    · refine ⟨utf8Encode (decChars 0), ?_, ?_⟩
      · rw [getFile, if_neg (checkpointName_ne_VERSION 0),
          getFile, if_neg (logName_ne_VERSION 0), getFile, if_pos rfl]
      · show parseVersionBytes (utf8Encode (decChars 0)) = some 0
        decide
    · refine ⟨ser, dflt, [], [], ?_, HrtData dflt ser hser, ?_, Hempty, rfl⟩
      · rw [getFile, if_pos rfl]
      · rw [getFile, if_neg (checkpointName_ne_logName 0 0), getFile, if_pos rfl]
  | some d0 =>
    obtain ⟨d1, hw, hstg, ⟨vb, hvb, hpv⟩, cb, t0, lb, us0, hcb, hde, hlb, hdp,
      hdata⟩ := openDb_some_ok h
    injection hw with hw
    subst hw
    constructor
    · rcases hstg with ⟨hex, rfl⟩ | ⟨nb, hnb, rfl⟩
      · unfold fileExists at hex
        cases hg : getFile d NEW_VERSION_FILE with
        | none => rfl
        | some c => rw [hg] at hex; simp at hex
      · rw [getFile_setFile, if_neg (fun he => NEW_VERSION_ne_VERSION he),
          getFile_removeFileD, if_pos rfl]
    · exact ⟨vb, hvb, hpv⟩
    · exact ⟨cb, t0, lb, us0, hcb, hde, hlb, hdp, hdata⟩

theorem runUpdates_ok {T A : Type} {app : T → A → T} {fmt : DataFormat T A}
    {flt : Faults} :
    ∀ {us : List A} {db : Db T} {d : Dir} {db1 : Db T} {d1 : Dir},
      runUpdates app fmt flt db d us = (db1, d1, .ok ()) →
      db1.data = us.foldl app db.data ∧ db1.version = db.version := by
  intro us
  induction us with
  | nil =>
    intro db d db1 d1 h
    rw [runUpdates] at h
    injection h with h1 h2
    subst h1
    exact ⟨rfl, rfl⟩
  | cons p ps ih =>
    intro db d db1 d1 h
    rw [runUpdates] at h
    split at h
    · rename_i db' d' u heq
      obtain ⟨hdata, hver⟩ := ih h
      obtain ⟨hdb', -⟩ := update_ok heq
      subst hdb'
      exact ⟨hdata, hver⟩
    · simp at h

theorem runUpdates_good {T A : Type} {app : T → A → T} {fmt : DataFormat T A}
    {flt : Faults}
    (Happ : ∀ (bs : Bytes) (us : List A) (q : A) (ser : Bytes),
      fmt.deserialize_params bs = .ok us → fmt.serialize_params q = .ok ser →
      fmt.deserialize_params (bs ++ ser) = .ok (us ++ [q])) :
    ∀ {us : List A} {db : Db T} {d : Dir} {db1 : Db T} {d1 : Dir},
      runUpdates app fmt flt db d us = (db1, d1, .ok ()) →
      Good app fmt d db → Good app fmt d1 db1 := by
  intro us
  induction us with
  | nil =>
    intro db d db1 d1 h hg
    rw [runUpdates] at h
    injection h with h1 h2
    subst h1
    injection h2 with h2
    subst h2
    exact hg
  | cons p ps ih =>
    intro db d db1 d1 h hg
    rw [runUpdates] at h
    split at h
    · rename_i db' d' u heq
      exact ih h (good_update Happ heq hg)
    · simp at h

/-! ### Checkpoint-path lemmas -/

theorem write_checkpoint_file_dir {T A : Type} {fmt : DataFormat T A}
    {flt : Faults} {db : Db T} {d d1 : Dir} {r : Result Unit}
    (h : write_checkpoint_file fmt flt db d = (d1, r)) :
    ∀ n, n ≠ checkpointName db.version → getFile d1 n = getFile d n := by
  unfold write_checkpoint_file at h
  simp only [] at h
  split at h
  · injection h with h1 h2
    subst h1
    intro n _
    rfl
  · split at h
    · injection h with h1 h2
      subst h1
      intro n hn
      rw [getFile_setFile, if_neg hn]
    · split at h <;>
        (injection h with h1 h2
         subst h1
         intro n hn
         rw [getFile_setFile, if_neg hn, getFile_setFile, if_neg hn])

theorem update_version_file_error {T : Type} {flt : Faults} {db : Db T}
    {d d1 : Dir} {e : DbError}
    (hren : flt.rename NEW_VERSION_FILE = false)
    (h : update_version_file flt db d = (d1, .error e)) :
    ∀ n, n ≠ NEW_VERSION_FILE → getFile d1 n = getFile d n := by
  unfold update_version_file at h
  split at h
  · rename_i dx e0 hw
    injection h with h1 h2
    subst h1
    exact fun n hn => fsWriteFile_dir hw n hn
  · rename_i dx u hw
    have hdx := fsWriteFile_ok hw
    split at h
    · rename_i e2 hfr
      unfold fsRename at hfr
      rw [hren] at hfr
      simp only [Bool.false_eq_true, if_false] at hfr
      rw [hdx, getFile_setFile, if_pos rfl] at hfr
      cases hfr
    · simp at h

theorem cleanupAux_none {flt : Faults} {v : Nat} {n : Name} :
    ∀ (ns : List Name) (d : Dir), getFile d n = none →
      getFile (cleanupAux flt v ns d).1 n = none := by
  intro ns
  induction ns with
  | nil => intro d h; exact h
  | cons m ms ih =>
    intro d h
    rw [cleanupAux]
    by_cases hm : is_outdated_file v m = true
    · rw [if_pos hm]
      cases hr : fsRemove flt d m with
      | error e => exact h
      | ok d1 =>
        have hd1 : d1 = removeFileD d m := fsRemove_ok hr
        apply ih
        rw [hd1, getFile_removeFileD]
        split <;> simp [h]
    · rw [if_neg hm]
      exact ih d h

theorem cleanup_none {flt : Faults} {v : Nat} {n : Name} {d : Dir}
    (h : getFile d n = none) : getFile (cleanup flt v d).1 n = none := by
  unfold cleanup
  split
  · exact h
  · exact cleanupAux_none _ d h

theorem update_preserves_version {T A : Type} (app : T → A → T)
    (fmt : DataFormat T A) (flt : Faults) (db : Db T) (d : Dir) (p : A) :
    (update app fmt flt db d p).1.version = db.version := by
  unfold update
  rcases hx : extend_update_log fmt flt db.version d p with ⟨dx, rx⟩
  cases rx <;> rfl

/-! ### Contract lemmas for the concrete format instances -/

theorem toyFmt_rt : ∀ (t : Nat) (bs : Bytes),
    toyFmt.serialize_data t = .ok bs → toyFmt.deserialize_data bs = .ok t := by
  intro t bs h
  injection h with h
  subst h
  rfl

theorem toyFmt_empty : toyFmt.deserialize_params [] = .ok [] := rfl

theorem toyFmt_append : ∀ (bs : Bytes) (us : List Nat) (q : Nat) (ser : Bytes),
    toyFmt.deserialize_params bs = .ok us → toyFmt.serialize_params q = .ok ser →
    toyFmt.deserialize_params (bs ++ ser) = .ok (us ++ [q]) := by
  intro bs us q ser h1 h2
  injection h1 with h1
  injection h2 with h2
  subst h1
  subst h2
  rfl

/-! ### UTF-8 decode/encode lemmas -/

theorem char_toNat_valid (c : Char) :
    c.toNat < 0xD800 ∨ (0xDFFF < c.toNat ∧ c.toNat < 0x110000) := by
  rcases c.valid with h | ⟨h1, h2⟩
  · left
    exact h
  · right
    exact ⟨h1, h2⟩

theorem decodeOne_encodeChar (c : Char) (bs : Bytes) :
    ∃ b tail, encodeChar c = b :: tail ∧ decodeOne b (tail ++ bs) = some (c, bs) := by
  have hval := char_toNat_valid c
  have hmax : c.toNat < 0x110000 := by rcases hval with h | ⟨_, h⟩ <;> omega
  have hofnat : Char.ofNat c.toNat = c := Char.ofNat_toNat c
  unfold encodeChar
  simp only []
  by_cases h1 : c.toNat < 0x80
  · refine ⟨c.toNat, [], by rw [if_pos h1], ?_⟩
    unfold decodeOne
    rw [if_pos h1, hofnat]
    rfl
  · rw [if_neg h1]
    by_cases h2 : c.toNat < 0x800
    · refine ⟨0xC0 + c.toNat / 64, [0x80 + c.toNat % 64], by rw [if_pos h2], ?_⟩
      unfold decodeOne
      rw [if_neg (show ¬(0xC0 + c.toNat / 64 < 0x80) by omega),
        if_neg (show ¬(0xC0 + c.toNat / 64 < 0xC2) by omega),
        if_pos (show 0xC0 + c.toNat / 64 < 0xE0 by omega)]
      simp only [List.cons_append, List.nil_append]
      rw [if_pos (show 0x80 ≤ 0x80 + c.toNat % 64 ∧ 0x80 + c.toNat % 64 < 0xC0 by
        constructor <;> omega)]
      have harith : (0xC0 + c.toNat / 64 - 0xC0) * 64 + (0x80 + c.toNat % 64 - 0x80)
          = c.toNat := by omega
      rw [harith, hofnat]
    · rw [if_neg h2]
      by_cases h3 : c.toNat < 0x10000
      · refine ⟨0xE0 + c.toNat / 4096,
          [0x80 + c.toNat / 64 % 64, 0x80 + c.toNat % 64], by rw [if_pos h3], ?_⟩
        unfold decodeOne
        rw [if_neg (show ¬(0xE0 + c.toNat / 4096 < 0x80) by omega),
          if_neg (show ¬(0xE0 + c.toNat / 4096 < 0xC2) by omega),
          if_neg (show ¬(0xE0 + c.toNat / 4096 < 0xE0) by omega),
          if_pos (show 0xE0 + c.toNat / 4096 < 0xF0 by omega)]
        simp only [List.cons_append, List.nil_append]
        rw [if_pos (show 0x80 ≤ 0x80 + c.toNat / 64 % 64 ∧
            0x80 + c.toNat / 64 % 64 < 0xC0 ∧
            0x80 ≤ 0x80 + c.toNat % 64 ∧ 0x80 + c.toNat % 64 < 0xC0 by
          refine ⟨by omega, by omega, by omega, by omega⟩)]
        have harith : (0xE0 + c.toNat / 4096 - 0xE0) * 4096 +
            (0x80 + c.toNat / 64 % 64 - 0x80) * 64 + (0x80 + c.toNat % 64 - 0x80)
            = c.toNat := by omega
        rw [if_pos (show 0x800 ≤ (0xE0 + c.toNat / 4096 - 0xE0) * 4096 +
              (0x80 + c.toNat / 64 % 64 - 0x80) * 64 + (0x80 + c.toNat % 64 - 0x80) ∧
            ¬(0xD800 ≤ (0xE0 + c.toNat / 4096 - 0xE0) * 4096 +
              (0x80 + c.toNat / 64 % 64 - 0x80) * 64 + (0x80 + c.toNat % 64 - 0x80) ∧
              (0xE0 + c.toNat / 4096 - 0xE0) * 4096 +
              (0x80 + c.toNat / 64 % 64 - 0x80) * 64 + (0x80 + c.toNat % 64 - 0x80)
                < 0xE000) by
          rw [harith]
          rcases hval with h | ⟨ha, hb⟩
          · exact ⟨by omega, by omega⟩
          · exact ⟨by omega, by omega⟩)]
        rw [harith, hofnat]
      · refine ⟨0xF0 + c.toNat / 262144,
          [0x80 + c.toNat / 4096 % 64, 0x80 + c.toNat / 64 % 64,
            0x80 + c.toNat % 64], by rw [if_neg h3], ?_⟩
        unfold decodeOne
        rw [if_neg (show ¬(0xF0 + c.toNat / 262144 < 0x80) by omega),
          if_neg (show ¬(0xF0 + c.toNat / 262144 < 0xC2) by omega),
          if_neg (show ¬(0xF0 + c.toNat / 262144 < 0xE0) by omega),
          if_neg (show ¬(0xF0 + c.toNat / 262144 < 0xF0) by omega),
          if_pos (show 0xF0 + c.toNat / 262144 < 0xF5 by omega)]
        simp only [List.cons_append, List.nil_append]
        rw [if_pos (show 0x80 ≤ 0x80 + c.toNat / 4096 % 64 ∧
            0x80 + c.toNat / 4096 % 64 < 0xC0 ∧
            0x80 ≤ 0x80 + c.toNat / 64 % 64 ∧ 0x80 + c.toNat / 64 % 64 < 0xC0 ∧
            0x80 ≤ 0x80 + c.toNat % 64 ∧ 0x80 + c.toNat % 64 < 0xC0 by
          refine ⟨by omega, by omega, by omega, by omega, by omega, by omega⟩)]
        have harith : (0xF0 + c.toNat / 262144 - 0xF0) * 262144 +
            (0x80 + c.toNat / 4096 % 64 - 0x80) * 4096 +
            (0x80 + c.toNat / 64 % 64 - 0x80) * 64 + (0x80 + c.toNat % 64 - 0x80)
            = c.toNat := by omega
        rw [if_pos (by rw [harith]; exact ⟨by omega, hmax⟩)]
        rw [harith, hofnat]

theorem decodeOne_length {b : Nat} {bs : Bytes} {c : Char} {rest : Bytes}
    (h : decodeOne b bs = some (c, rest)) : rest.length ≤ bs.length := by
  unfold decodeOne at h
  split at h
  · injection h with h
    injection h with h1 h2
    subst h2
    exact Nat.le_refl _
  · split at h
    · cases h
    · split at h
      · split at h
        · rename_i b1 bs1
          split at h
          · injection h with h
            injection h with h1 h2
            subst h2
            simp
          · cases h
        · cases h
      · split at h
        · split at h
          · rename_i b1 b2 bs2
            split at h
            · split at h
              · injection h with h
                injection h with h1 h2
                subst h2
                simp
                omega
              · cases h
            · cases h
          · cases h
        · split at h
          · split at h
            · rename_i b1 b2 b3 bs3
              split at h
              · split at h
                · injection h with h
                  injection h with h1 h2
                  subst h2
                  simp
                  omega
                · cases h
              · cases h
            · cases h
          · cases h

theorem utf8DecodeAux_fuel :
    ∀ (f1 : Nat) (bs : Bytes) (f2 : Nat), bs.length ≤ f1 → bs.length ≤ f2 →
      utf8DecodeAux f1 bs = utf8DecodeAux f2 bs := by
  intro f1
  induction f1 with
  | zero =>
    intro bs f2 h1 h2
    have : bs = [] := List.length_eq_zero.mp (Nat.le_zero.mp h1)
    subst this
    cases f2 <;> rfl
  | succ f ih =>
    intro bs f2 h1 h2
    cases bs with
    | nil => cases f2 <;> rfl
    | cons b rest =>
      cases f2 with
      | zero => simp at h2
      | succ g =>
        rw [utf8DecodeAux, utf8DecodeAux]
        cases hd : decodeOne b rest with
        | none => rfl
        | some pr =>
          obtain ⟨c, rest2⟩ := pr
          have hlen := decodeOne_length hd
          simp only [List.length_cons] at h1 h2
          show (match utf8DecodeAux f rest2 with
            | some cs => some (c :: cs)
            | none => none) =
            (match utf8DecodeAux g rest2 with
            | some cs => some (c :: cs)
            | none => none)
          rw [ih rest2 g (by omega) (by omega)]

theorem utf8Decode_encodeChar_append (c : Char) (bs : Bytes) :
    utf8Decode (encodeChar c ++ bs) = (utf8Decode bs).map (fun cs => c :: cs) := by
  obtain ⟨b, tail, hec, hdec⟩ := decodeOne_encodeChar c bs
  unfold utf8Decode
  rw [hec, List.cons_append]
  have hlen : (b :: (tail ++ bs)).length = (tail ++ bs).length + 1 := rfl
  rw [hlen, utf8DecodeAux, hdec]
  show (match utf8DecodeAux (tail ++ bs).length bs with
    | some cs => some (c :: cs)
    | none => none) = Option.map (fun cs => c :: cs) (utf8DecodeAux bs.length bs)
  rw [utf8DecodeAux_fuel (tail ++ bs).length bs bs.length (by simp) (Nat.le_refl _)]
  cases utf8DecodeAux bs.length bs <;> rfl

theorem utf8Decode_encode_append (cs : List Char) (bs : Bytes) :
    utf8Decode (utf8Encode cs ++ bs) = (utf8Decode bs).map (fun tl => cs ++ tl) := by
  induction cs with
  | nil =>
    rw [utf8Encode, List.nil_append]
    cases utf8Decode bs <;> rfl
  | cons c rest ih =>
    rw [utf8Encode, List.append_assoc, utf8Decode_encodeChar_append, ih]
    cases utf8Decode bs <;> rfl

/-! ### Line-splitting and line-parsing lemmas -/

theorem splitNL_append {l : List Char} (hnl : '\n' ∉ l) (rest : List Char) :
    splitNL (l ++ '\n' :: rest) = l :: splitNL rest := by
  induction l with
  | nil =>
    rw [List.nil_append, splitNL, if_pos rfl]
  | cons c cs ih =>
    have hc : ¬c = '\n' := fun he => hnl (he ▸ List.mem_cons_self c cs)
    have hcs : '\n' ∉ cs := fun hm => hnl (List.mem_cons_of_mem c hm)
    rw [List.cons_append, splitNL, if_neg hc, ih hcs]

theorem splitNL_joinNL {lines : List (List Char)}
    (h : ∀ l ∈ lines, '\n' ∉ l) (tcs : List Char) :
    splitNL (joinNL lines ++ tcs) = lines ++ splitNL tcs := by
  induction lines with
  | nil => rfl
  | cons l ls ih =>
    rw [joinNL, List.append_assoc, List.cons_append,
      splitNL_append (h l (List.mem_cons_self l ls)),
      ih (fun x hx => h x (List.mem_cons_of_mem l hx))]
    rfl

theorem parseLines_append {A : Type} (f : List Char → Result A)
    {us : List A} {lines : List (List Char)}
    (h : List.Forall₂ (fun u l => f l = .ok u ∧ l ≠ []) us lines) :
    ∀ rest, parseLines f (lines ++ rest) = us ++ parseLines f rest := by
  induction h with
  | nil => intro rest; rfl
  | cons hf hrest ih =>
    intro rest
    obtain ⟨hok, hne⟩ := hf
    rw [List.cons_append, parseLines, if_neg hne, hok, ih]
    rfl

theorem parseLines_badTail {A : Type} (f : List Char → Result A) :
    ∀ (pre : List (List Char)) (l : List Char) (post : List (List Char))
      (e : DbError), (∀ x ∈ pre, x = []) → l ≠ [] → f l = .error e →
      parseLines f (pre ++ l :: post) = [] := by
  intro pre
  induction pre with
  | nil =>
    intro l post e _ hne herr
    rw [List.nil_append, parseLines, if_neg hne, herr]
  | cons x xs ih =>
    intro l post e hpre hne herr
    have hx : x = [] := hpre x (List.mem_cons_self x xs)
    rw [List.cons_append, parseLines, if_pos hx,
      ih l post e (fun y hy => hpre y (List.mem_cons_of_mem x hy)) hne herr]

/-! ### Claim theorems -/

/-- C1: for every sequence of updates successfully applied after opening a
store (under a format honoring the serde round-trip and append-extension
contracts), reopening the resulting directory succeeds and yields exactly
the handle reached by the updates, whose in-memory state is the state held
at the original open with the updates applied in order — replay
reconstructs the state exactly. -/
theorem c1_round_trip {T A : Type} {dflt : T} {app : T → A → T}
    {fmt : DataFormat T A} {w : Option Dir} {d0 : Dir} {db0 : Db T}
    {us : List A} {db1 : Db T} {d1 : Dir}
    (HrtData : ∀ (t : T) (bs : Bytes),
      fmt.serialize_data t = .ok bs → fmt.deserialize_data bs = .ok t)
    (Hempty : fmt.deserialize_params [] = .ok [])
    (Happ : ∀ (bs : Bytes) (us' : List A) (q : A) (ser : Bytes),
      fmt.deserialize_params bs = .ok us' → fmt.serialize_params q = .ok ser →
      fmt.deserialize_params (bs ++ ser) = .ok (us' ++ [q]))
    (hopen : openDb dflt app fmt noFaults w = (some d0, .ok db0))
    (hrun : runUpdates app fmt noFaults db0 d0 us = (db1, d1, .ok ())) :
    openDb dflt app fmt noFaults (some d1) = (some d1, .ok db1) ∧
    db1.data = us.foldl app db0.data := by
  have hg0 := good_open HrtData Hempty hopen
  have hg1 := runUpdates_good Happ hrun hg0
  exact ⟨good_reopen hg1, (runUpdates_ok hrun).1⟩

/-- Witness for C1 at a concrete run: open a fresh store, apply the
updates `[2, 3]`, reopen, and recover the counter value `5`. -/
theorem c1_round_trip_witness :
    openDb (0 : Nat) toyApp toyFmt noFaults
        (some [(checkpointName 0, [0]), (VERSION_FILE, [48]),
          (logName 0, [2, 3])])
      = (some [(checkpointName 0, [0]), (VERSION_FILE, [48]),
          (logName 0, [2, 3])], .ok ⟨5, 0⟩) ∧
    (⟨5, 0⟩ : Db Nat).data = [2, 3].foldl toyApp (⟨0, 0⟩ : Db Nat).data :=
  c1_round_trip toyFmt_rt toyFmt_empty toyFmt_append
    (show openDb (0 : Nat) toyApp toyFmt noFaults none =
      (some [(checkpointName 0, [0]), (logName 0, []), (VERSION_FILE, [48])],
        .ok ⟨0, 0⟩) from rfl)
    (show runUpdates toyApp toyFmt noFaults ⟨0, 0⟩
        [(checkpointName 0, [0]), (logName 0, []), (VERSION_FILE, [48])]
        [2, 3] =
      (⟨5, 0⟩, [(checkpointName 0, [0]), (VERSION_FILE, [48]),
        (logName 0, [2, 3])], .ok ()) from rfl)

/-- C2: `update` first durably appends the serialized arguments to the
current version's log and only afterwards applies the mutation in memory:
on success the new in-memory state is the mutation applied to the old one
and the log grew by exactly the serialized record; on any failure
(serialization or the durable append) the handle — state and version — is
exactly the one before the call. -/
theorem c2_update_durability {T A : Type} (app : T → A → T)
    (fmt : DataFormat T A) (flt : Faults) (db : Db T) (d : Dir) (p : A) :
    (∀ (db1 : Db T) (d1 : Dir) (e : DbError),
      update app fmt flt db d p = (db1, d1, .error e) → db1 = db) ∧
    (∀ (db1 : Db T) (d1 : Dir) (u : Unit),
      update app fmt flt db d p = (db1, d1, .ok u) →
      db1.data = app db.data p ∧ db1.version = db.version ∧
      ∃ ser old, fmt.serialize_params p = .ok ser ∧
        (getFile d (logName db.version) = some old ∨
          (getFile d (logName db.version) = none ∧ old = [])) ∧
        getFile d1 (logName db.version) = some (old ++ ser)) := by
  constructor
  · intro db1 d1 e h
    exact update_error h
  · intro db1 d1 u h
    obtain ⟨hdb1, ser, old, hser, hold, hlog, -⟩ := update_ok h
    subst hdb1
    exact ⟨rfl, rfl, ser, old, hser, hold, hlog⟩

/-- Witness for C2: a successful update appends its record and applies the
mutation, and an update whose append faults leaves the handle unchanged. -/
theorem c2_update_durability_witness :
    ((⟨2, 0⟩ : Db Nat).data = toyApp 0 2 ∧ (⟨2, 0⟩ : Db Nat).version = 0 ∧
      ∃ ser old, toyFmt.serialize_params 2 = .ok ser ∧
        (getFile [(checkpointName 0, [0]), (VERSION_FILE, [48]), (logName 0, [])]
            (logName 0) = some old ∨
          (getFile [(checkpointName 0, [0]), (VERSION_FILE, [48]), (logName 0, [])]
              (logName 0) = none ∧ old = [])) ∧
        getFile [(checkpointName 0, [0]), (VERSION_FILE, [48]), (logName 0, [2])]
          (logName 0) = some (old ++ ser)) ∧
    (⟨0, 0⟩ : Db Nat) = ⟨0, 0⟩ :=
  ⟨(c2_update_durability toyApp toyFmt noFaults ⟨0, 0⟩
      [(checkpointName 0, [0]), (VERSION_FILE, [48]), (logName 0, [])] 2).2
      ⟨2, 0⟩ _ () rfl,
    (c2_update_durability toyApp toyFmt appendFault ⟨0, 0⟩
      [(checkpointName 0, [0]), (VERSION_FILE, [48]), (logName 0, [])] 2).1
      ⟨0, 0⟩ _ .ioFault rfl⟩

/-- C7: opening a nonexistent path creates the store: the result is a
handle at version 0 holding the default state, and the directory holds
exactly `checkpoint.0` with the serialized default state, an empty
`logfile.0`, and a `version` pointer file containing the text "0"
(the byte 48). -/
theorem c7_open_fresh {T A : Type} (dflt : T) (app : T → A → T)
    (fmt : DataFormat T A) {ser : Bytes}
    (hser : fmt.serialize_data dflt = .ok ser) :
    openDb dflt app fmt noFaults none =
      (some [(checkpointName 0, ser), (logName 0, []), (VERSION_FILE, [48])],
        .ok ⟨dflt, 0⟩) := by
  have hw : write_checkpoint_file fmt noFaults (⟨dflt, 0⟩ : Db T) [] =
      ([(checkpointName 0, ser)], .ok ()) := by
    unfold write_checkpoint_file
    simp only [noFaults, Bool.false_eq_true, if_false, hser]
    rfl
  have hcl : create_logfile_if_required noFaults 0 [(checkpointName 0, ser)] =
      ([(checkpointName 0, ser), (logName 0, [])], .ok (logName 0)) := by
    unfold create_logfile_if_required fsWriteFile
    have hnex : fileExists [(checkpointName 0, ser)] (logName 0) = false := by
      unfold fileExists getFile
      rw [if_neg (checkpointName_ne_logName 0 0)]
      rfl
    simp only [hnex, Bool.false_eq_true, if_false, noFaults]
    simp [setFile, removeFileD, checkpointName_ne_logName 0 0]
  have hu : update_version_file noFaults (⟨dflt, 0⟩ : Db T)
      [(checkpointName 0, ser), (logName 0, [])] =
      ([(checkpointName 0, ser), (logName 0, []), (VERSION_FILE, [48])],
        .ok ()) := by
    unfold update_version_file fsWriteFile fsRename
    simp only [noFaults, Bool.false_eq_true, if_false]
    have h1 : setFile [(checkpointName 0, ser), (logName 0, [])]
        NEW_VERSION_FILE (utf8Encode (decChars 0)) =
        [(checkpointName 0, ser), (logName 0, []), (NEW_VERSION_FILE, [48])] := by
      simp [setFile, removeFileD, checkpointName_ne_NEW_VERSION 0,
        logName_ne_NEW_VERSION 0]
      rfl
    rw [h1]
    have h2 : getFile [(checkpointName 0, ser), (logName 0, []),
        (NEW_VERSION_FILE, [48])] NEW_VERSION_FILE = some [48] := by
      rw [getFile, if_neg (checkpointName_ne_NEW_VERSION 0),
        getFile, if_neg (logName_ne_NEW_VERSION 0), getFile, if_pos rfl]
    rw [h2]
    simp [setFile, removeFileD, checkpointName_ne_NEW_VERSION 0,
      logName_ne_NEW_VERSION 0, checkpointName_ne_VERSION 0,
      logName_ne_VERSION 0]
  simp only [openDb]
  rw [if_neg (show ¬noFaults.createDir = true by decide)]
  simp only [hw, hcl, hu]

/-- Witness for C7 on the concrete counter store. -/
theorem c7_open_fresh_witness :
    openDb (0 : Nat) toyApp toyFmt noFaults none =
      (some [(checkpointName 0, [0]), (logName 0, []), (VERSION_FILE, [48])],
        .ok ⟨0, 0⟩) :=
  c7_open_fresh 0 toyApp toyFmt rfl

/-- C10: opening an existing directory whose pointer parses to `v` fails
with the I/O error `notFound` when `logfile.v` is absent, even though the
checkpoint deserializes successfully: a missing log file is not treated as
an empty log. -/
theorem c10_missing_log {T A : Type} (dflt : T) (app : T → A → T)
    (fmt : DataFormat T A) {d : Dir} {vb cb : Bytes} {v : Nat} {t0 : T}
    (hnostg : getFile d NEW_VERSION_FILE = none)
    (hvb : getFile d VERSION_FILE = some vb)
    (hpv : parseVersionBytes vb = some v)
    (hcb : getFile d (checkpointName v) = some cb)
    (hde : fmt.deserialize_data cb = .ok t0)
    (hlog : getFile d (logName v) = none) :
    openDb dflt app fmt noFaults (some d) = (some d, .error .notFound) := by
  have hex : fileExists d NEW_VERSION_FILE = false := by
    unfold fileExists
    rw [hnostg]
    rfl
  have hrv : fsRead noFaults d VERSION_FILE = .ok vb := by
    unfold fsRead
    rw [if_neg (by simp [noFaults]), hvb]
  have hrc : read_checkpoint_file fmt noFaults (⟨dflt, v⟩ : Db T) d
      = .ok ⟨t0, v⟩ := by
    unfold read_checkpoint_file
    have hrd : fsRead noFaults d (checkpointName v) = .ok cb := by
      unfold fsRead
      rw [if_neg (by simp [noFaults]), hcb]
    simp only [hrd, hde]
  have hrp : replay_updates app fmt noFaults (⟨t0, v⟩ : Db T) d
      = .error .notFound := by
    unfold replay_updates fsRead
    rw [if_neg (by simp [noFaults]), hlog]
  simp only [openDb, hex, Bool.false_eq_true, if_false, hrv, hpv, hrc, hrp]

/-- Witness for C10: a store whose pointer names version 0 with a valid
checkpoint but no `logfile.0` fails to open with `notFound`. -/
theorem c10_missing_log_witness :
    openDb (0 : Nat) toyApp toyFmt noFaults
        (some [(checkpointName 0, [0]), (VERSION_FILE, [48])]) =
      (some [(checkpointName 0, [0]), (VERSION_FILE, [48])],
        .error .notFound) :=
  c10_missing_log 0 toyApp toyFmt
    (show getFile [(checkpointName 0, [0]), (VERSION_FILE, [48])]
      NEW_VERSION_FILE = none from by decide)
    (show getFile [(checkpointName 0, [0]), (VERSION_FILE, [48])]
      VERSION_FILE = some [48] from by decide)
    (show parseVersionBytes [48] = some 0 from by decide)
    (show getFile [(checkpointName 0, [0]), (VERSION_FILE, [48])]
      (checkpointName 0) = some [0] from by decide)
    (show toyFmt.deserialize_data [0] = .ok 0 from rfl)
    (show getFile [(checkpointName 0, [0]), (VERSION_FILE, [48])]
      (logName 0) = none from by decide)

/-- C6: when the staging pointer file is present, `open` first renames it
over the pointer file and then proceeds exactly as an `open` of the
directory in which that rename has been committed (the only recovery
action); the staging file's contents become the authoritative version: if
the open succeeds, the recovered handle's version is the parse of those
contents. -/
theorem c6_staging_recovery {T A : Type} (dflt : T) (app : T → A → T)
    (fmt : DataFormat T A) {d : Dir} {nb : Bytes}
    (hnb : getFile d NEW_VERSION_FILE = some nb) :
    openDb dflt app fmt noFaults (some d) =
      openDb dflt app fmt noFaults
        (some (setFile (removeFileD d NEW_VERSION_FILE) VERSION_FILE nb)) ∧
    ∀ (db : Db T), (openDb dflt app fmt noFaults (some d)).2 = .ok db →
      parseVersionBytes nb = some db.version := by
  have hexT : fileExists d NEW_VERSION_FILE = true := by
    unfold fileExists
    rw [hnb]
    rfl
  have hren : fsRename noFaults d NEW_VERSION_FILE VERSION_FILE =
      .ok (setFile (removeFileD d NEW_VERSION_FILE) VERSION_FILE nb) := by
    unfold fsRename
    rw [if_neg (by simp [noFaults]), hnb]
  have hexF : fileExists (setFile (removeFileD d NEW_VERSION_FILE)
      VERSION_FILE nb) NEW_VERSION_FILE = false := by
    unfold fileExists
    rw [getFile_setFile, if_neg NEW_VERSION_ne_VERSION,
      getFile_removeFileD, if_pos rfl]
    rfl
  constructor
  · simp only [openDb, hexT, if_true, hren, hexF, Bool.false_eq_true, if_false]
  · intro db hok
    have h : openDb dflt app fmt noFaults (some d) =
        ((openDb dflt app fmt noFaults (some d)).1, .ok db) :=
      Prod.ext rfl hok
    obtain ⟨d1, hw, hstg, ⟨vb, hvb, hpv⟩, -⟩ := openDb_some_ok h
    rcases hstg with ⟨hex, rfl⟩ | ⟨nb2, hnb2, rfl⟩
    · rw [hexT] at hex
      cases hex
    · rw [hnb] at hnb2
      injection hnb2 with hnb2
      subst hnb2
      rw [getFile_setFile, if_pos rfl] at hvb
      injection hvb with hvb
      subst hvb
      exact hpv

/-- Counterexample to C3 as stated: a checkpoint whose checkpoint-file
write fails — well before the atomic pointer rename — leaves the on-disk
state untouched, yet the engine handle's version counter has changed
(it was incremented before the first fallible step and is never rolled
back), contradicting "the engine handle's state and version counter are
unchanged". -/
theorem c3_counterexample :
    (create_checkpoint toyFmt cpWriteFault ⟨0, 0⟩
        [(checkpointName 0, [0]), (logName 0, []),
          (VERSION_FILE, [48])]).2.2 = .error .ioFault ∧
    cpWriteFault.rename NEW_VERSION_FILE = false ∧
    ((create_checkpoint toyFmt cpWriteFault ⟨0, 0⟩
        [(checkpointName 0, [0]), (logName 0, []),
          (VERSION_FILE, [48])]).1).version ≠ (⟨(0 : Nat), 0⟩ : Db Nat).version := by
  decide

/-- C3 amended: if `create_checkpoint` fails and the rename primitive is
not the failing one (so the failure happens before the atomic pointer
rename), the on-disk version pointer is untouched and the in-memory data
is unchanged — but the handle's version counter has been incremented by 1
(mod 2^64), not left unchanged. -/
theorem c3_failed_checkpoint_amended {T A : Type} {fmt : DataFormat T A}
    {flt : Faults} {db : Db T} {d : Dir} {db1 : Db T} {d1 : Dir} {e : DbError}
    (hren : flt.rename NEW_VERSION_FILE = false)
    (h : create_checkpoint fmt flt db d = (db1, d1, .error e)) :
    getFile d1 VERSION_FILE = getFile d VERSION_FILE ∧
    db1.data = db.data ∧
    db1.version = (db.version + 1) % 2 ^ 64 := by
  unfold create_checkpoint at h
  simp only [] at h
  split at h
  · rename_i dW e0 heqW
    injection h with h1 h2
    injection h2 with h2 h3
    subst h1
    subst h2
    have hdir := write_checkpoint_file_dir heqW
    exact ⟨hdir VERSION_FILE (fun he => checkpointName_ne_VERSION _ he.symm),
      rfl, rfl⟩
  · rename_i dW uW heqW
    have hdirW := write_checkpoint_file_dir heqW
    split at h
    · rename_i d2 e0 heqC
      injection h with h1 h2
      injection h2 with h2 h3
      subst h1
      subst h2
      have hdirC := create_logfile_if_required_dir heqC
      refine ⟨?_, rfl, rfl⟩
      rw [hdirC VERSION_FILE (fun he => logName_ne_VERSION _ he.symm),
        hdirW VERSION_FILE (fun he => checkpointName_ne_VERSION _ he.symm)]
    · rename_i pr d2 name heqC
      obtain ⟨hname, old, hold, hd2log, hd2rest⟩ :=
        create_logfile_if_required_ok heqC
      split at h
      · rename_i dU e0 heqU
        injection h with h1 h2
        injection h2 with h2 h3
        subst h1
        subst h2
        have hdU := update_version_file_error hren heqU
        refine ⟨?_, rfl, rfl⟩
        rw [hdU VERSION_FILE (fun he => NEW_VERSION_ne_VERSION he.symm),
          hd2rest VERSION_FILE (fun he => logName_ne_VERSION _ he.symm),
          hdirW VERSION_FILE (fun he => checkpointName_ne_VERSION _ he.symm)]
      · rename_i dU uU heqU
        simp at h

/-- Witness for the amended C3 at the concrete failing run of the
counterexample. -/
theorem c3_failed_checkpoint_amended_witness :
    getFile (create_checkpoint toyFmt cpWriteFault ⟨0, 0⟩
        [(checkpointName 0, [0]), (logName 0, []),
          (VERSION_FILE, [48])]).2.1 VERSION_FILE =
      getFile [(checkpointName 0, [0]), (logName 0, []),
        (VERSION_FILE, [48])] VERSION_FILE ∧
    ((create_checkpoint toyFmt cpWriteFault ⟨0, 0⟩
        [(checkpointName 0, [0]), (logName 0, []),
          (VERSION_FILE, [48])]).1).data = (⟨(0 : Nat), 0⟩ : Db Nat).data ∧
    ((create_checkpoint toyFmt cpWriteFault ⟨0, 0⟩
        [(checkpointName 0, [0]), (logName 0, []),
          (VERSION_FILE, [48])]).1).version = (0 + 1) % 2 ^ 64 :=
  c3_failed_checkpoint_amended (by decide)
    (show create_checkpoint toyFmt cpWriteFault ⟨0, 0⟩
        [(checkpointName 0, [0]), (logName 0, []), (VERSION_FILE, [48])] =
      (⟨0, 1⟩, [(checkpointName 0, [0]), (logName 0, []), (VERSION_FILE, [48]),
          (checkpointName 1, [])],
        .error .ioFault) from by decide)

/-- C5: a successful `create_checkpoint` (below the `u64` bound)
increments the version counter by exactly 1 and leaves the store at the
new version: the new checkpoint file holds the serialized state, the new
log is empty (when no stale log for the new version pre-existed), the
pointer file holds the new decimal value with no staging file left, and
the version counter never decreases — updates preserve it, a fresh open
starts it at 0, and a checkpoint raises it. -/
theorem c5_checkpoint_protocol {T A : Type} {fmt : DataFormat T A}
    {flt : Faults} {db : Db T} {d : Dir} {db1 : Db T} {d1 : Dir}
    (h : create_checkpoint fmt flt db d = (db1, d1, .ok ()))
    (hov : db.version + 1 < 2 ^ 64)
    (hfresh : getFile d (logName (db.version + 1)) = none) :
    db1.version = db.version + 1 ∧ db.version ≤ db1.version ∧
    db1.data = db.data ∧
    (∃ ser, fmt.serialize_data db.data = .ok ser ∧
      getFile d1 (checkpointName (db.version + 1)) = some ser) ∧
    getFile d1 (logName (db.version + 1)) = some [] ∧
    getFile d1 VERSION_FILE = some (utf8Encode (decChars (db.version + 1))) ∧
    getFile d1 NEW_VERSION_FILE = none ∧
    (∀ (app : T → A → T) (db2 : Db T) (d2 : Dir) (p : A),
      (update app fmt flt db2 d2 p).1.version = db2.version) ∧
    (∀ (dflt : T) (app : T → A → T) (flt2 : Faults) (w2 : Option Dir)
      (db2 : Db T), openDb dflt app fmt flt2 none = (w2, .ok db2) →
      db2.version = 0) := by
  have hmod : (db.version + 1) % 2 ^ 64 = db.version + 1 := Nat.mod_eq_of_lt hov
  unfold create_checkpoint at h
  simp only [] at h
  rw [hmod] at h
  split at h
  · simp at h
  · rename_i dW uW heqW
    obtain ⟨ser, hser, hdW⟩ := write_checkpoint_file_ok heqW
    split at h
    · simp at h
    · rename_i pr d2 name heqC
      obtain ⟨hname, old, hold, hd2log, hd2rest⟩ :=
        create_logfile_if_required_ok heqC
      have hWlog : getFile dW (logName (db.version + 1)) = none := by
        rw [hdW, getFile_setFile,
          if_neg (fun he => checkpointName_ne_logName _ _ he.symm)]
        exact hfresh
      have holde : old = [] := by
        rcases hold with hsome | ⟨-, he⟩
        · rw [hWlog] at hsome
          cases hsome
        · exact he
      subst holde
      split at h
      · simp at h
      · rename_i dU uU heqU
        obtain ⟨hUv, hUn, hUrest⟩ := update_version_file_ok heqU
        injection h with h1 h2
        injection h2 with h2 h3
        subst h1
        subst h2
        have hcpfalse : is_outdated_file (db.version + 1)
            (checkpointName (db.version + 1)) = false := by
          rw [is_outdated_checkpointName]
          simp
        have hlogfalse : is_outdated_file (db.version + 1)
            (logName (db.version + 1)) = false := by
          rw [is_outdated_logName]
          simp
        refine ⟨rfl, Nat.le_succ _, rfl, ⟨ser, hser, ?_⟩, ?_, ?_, ?_,
          fun app db2 d2 p => update_preserves_version app fmt flt db2 d2 p, ?_⟩
        · rw [cleanup_preserves _ hcpfalse,
            hUrest _ (checkpointName_ne_VERSION _)
              (checkpointName_ne_NEW_VERSION _),
            hd2rest _ (checkpointName_ne_logName _ _),
            hdW, getFile_setFile, if_pos rfl]
        · rw [cleanup_preserves _ hlogfalse,
            hUrest _ (logName_ne_VERSION _) (logName_ne_NEW_VERSION _)]
          exact hd2log
        · rw [cleanup_preserves _ (is_outdated_VERSION _)]
          exact hUv
        · exact cleanup_none hUn
        · intro dflt app flt2 w2 db2 hopen
          obtain ⟨hdb2, -⟩ := openDb_none_ok hopen
          rw [hdb2]

/-- Witness for C5: checkpointing the concrete counter store at state 5
moves it to version 1 with checkpoint.1 = [5], an empty logfile.1 and the
pointer "1". -/
theorem c5_checkpoint_protocol_witness :
    (⟨5, 1⟩ : Db Nat).version = 0 + 1 ∧ (0 : Nat) ≤ (⟨5, 1⟩ : Db Nat).version ∧
    (⟨5, 1⟩ : Db Nat).data = (5 : Nat) ∧
    (∃ ser, toyFmt.serialize_data 5 = .ok ser ∧
      getFile [(checkpointName 1, [5]), (logName 1, []), (VERSION_FILE, [49])]
        (checkpointName (0 + 1)) = some ser) ∧
    getFile [(checkpointName 1, [5]), (logName 1, []), (VERSION_FILE, [49])]
      (logName (0 + 1)) = some [] ∧
    getFile [(checkpointName 1, [5]), (logName 1, []), (VERSION_FILE, [49])]
      VERSION_FILE = some (utf8Encode (decChars (0 + 1))) ∧
    getFile [(checkpointName 1, [5]), (logName 1, []), (VERSION_FILE, [49])]
      NEW_VERSION_FILE = none ∧
    (∀ (app : Nat → Nat → Nat) (db2 : Db Nat) (d2 : Dir) (p : Nat),
      (update app toyFmt noFaults db2 d2 p).1.version = db2.version) ∧
    (∀ (dflt : Nat) (app : Nat → Nat → Nat) (flt2 : Faults) (w2 : Option Dir)
      (db2 : Db Nat), openDb dflt app toyFmt flt2 none = (w2, .ok db2) →
      db2.version = 0) := by
  have h := c5_checkpoint_protocol
    (show create_checkpoint toyFmt noFaults ⟨5, 0⟩
        [(checkpointName 0, [0]), (VERSION_FILE, [48]), (logName 0, [2, 3])] =
      (⟨5, 1⟩, [(checkpointName 1, [5]), (logName 1, []),
        (VERSION_FILE, [49])], .ok ()) from by decide)
    (by decide) (by decide)
  exact h

/-- C9: whenever the checkpoint write, log creation and pointer-commit
steps succeed, `create_checkpoint` returns success for every fault
assignment to the cleanup primitives (directory scan and file removal):
a failure while deleting stale files never fails the checkpoint. -/
theorem c9_cleanup_nonfatal {T A : Type} {fmt : DataFormat T A}
    (flt : Faults) (db : Db T) (d : Dir) {ser : Bytes}
    (hser : fmt.serialize_data db.data = .ok ser)
    (hc1 : flt.createFile (checkpointName ((db.version + 1) % 2 ^ 64)) = false)
    (hc2 : flt.createFile (logName ((db.version + 1) % 2 ^ 64)) = false)
    (hc3 : flt.createFile NEW_VERSION_FILE = false)
    (hw1 : flt.write (checkpointName ((db.version + 1) % 2 ^ 64)) = false)
    (hw2 : flt.write (logName ((db.version + 1) % 2 ^ 64)) = false)
    (hw3 : flt.write NEW_VERSION_FILE = false)
    (hren : flt.rename NEW_VERSION_FILE = false) :
    (create_checkpoint fmt flt db d).2.2 = .ok () := by
  unfold create_checkpoint
  simp only []
  have hw : write_checkpoint_file fmt flt
      ({ db with version := (db.version + 1) % 2 ^ 64 }) d =
      (setFile d (checkpointName ((db.version + 1) % 2 ^ 64)) ser, .ok ()) := by
    unfold write_checkpoint_file
    simp only [hc1, hw1, Bool.false_eq_true, if_false, hser]
    rw [setFile_setFile]
  simp only [hw]
  have hcl : ∃ d2, create_logfile_if_required flt ((db.version + 1) % 2 ^ 64)
      (setFile d (checkpointName ((db.version + 1) % 2 ^ 64)) ser) =
      (d2, .ok (logName ((db.version + 1) % 2 ^ 64))) := by
    unfold create_logfile_if_required
    simp only []
    split
    · exact ⟨_, rfl⟩
    · unfold fsWriteFile
      simp only [hc2, hw2, Bool.false_eq_true, if_false]
      exact ⟨_, rfl⟩
  obtain ⟨d2, hcl⟩ := hcl
  simp only [hcl]
  have hu : ∃ dU, update_version_file flt
      ({ db with version := (db.version + 1) % 2 ^ 64 }) d2 = (dU, .ok ()) := by
    unfold update_version_file fsWriteFile fsRename
    simp only [hc3, hw3, hren, Bool.false_eq_true, if_false]
    rw [getFile_setFile, if_pos rfl]
    exact ⟨_, rfl⟩
  obtain ⟨dU, hu⟩ := hu
  simp only [hu]

/-- Witness for C9 at a concrete run where every removal faults: the
cleanup genuinely fails (the stale `checkpoint.0` survives in the
resulting directory) and `create_checkpoint` still reports success. -/
theorem c9_cleanup_nonfatal_witness :
    (create_checkpoint toyFmt removeFault ⟨5, 0⟩
        [(checkpointName 0, [0]), (VERSION_FILE, [48]),
          (logName 0, [2, 3])]).2.2 = .ok () ∧
    getFile (create_checkpoint toyFmt removeFault ⟨5, 0⟩
        [(checkpointName 0, [0]), (VERSION_FILE, [48]),
          (logName 0, [2, 3])]).2.1 (checkpointName 0) = some [0] :=
  ⟨c9_cleanup_nonfatal removeFault ⟨5, 0⟩ _
      (show toyFmt.serialize_data 5 = .ok [5] from rfl)
      (by decide) (by decide) (by decide) (by decide) (by decide) (by decide)
      (by decide),
    by decide⟩

/-- C8: a fault-free post-checkpoint cleanup deletes exactly the files
`is_outdated_file` selects, and that selection is exactly: the staging
file `new_version`, and the checkpoint- or log-named files whose numeric
suffix parses below the current version; it never selects the version
pointer, the current version's checkpoint or log, or any version at or
above the current one. -/
theorem c8_cleanup_exact (v : Nat) (hv : v ≤ 2 ^ 64) (d : Dir)
    (hnd : (d.map Prod.fst).Nodup) :
    cleanup noFaults v d =
      (d.filter (fun e => !is_outdated_file v e.1), .ok ()) ∧
    is_outdated_file v NEW_VERSION_FILE = true ∧
    (∀ w, w < v → is_outdated_file v (checkpointName w) = true ∧
      is_outdated_file v (logName w) = true) ∧
    is_outdated_file v VERSION_FILE = false ∧
    (∀ w, v ≤ w → is_outdated_file v (checkpointName w) = false ∧
      is_outdated_file v (logName w) = false) := by
  refine ⟨cleanup_noFaults v d hnd, is_outdated_NEW_VERSION v, ?_,
    is_outdated_VERSION v, ?_⟩
  · intro w hw
    have hw64 : w < 2 ^ 64 := lt_of_lt_of_le hw hv
    constructor
    · rw [is_outdated_checkpointName]
      simp only [Bool.and_eq_true, decide_eq_true_eq]
      exact ⟨by omega, hw⟩
    · rw [is_outdated_logName]
      simp only [Bool.and_eq_true, decide_eq_true_eq]
      exact ⟨by omega, hw⟩
  · intro w hw
    have hnl : ¬w < v := Nat.not_lt.mpr hw
    have hfalse : decide (w < v) = false := by simp [hnl]
    constructor
    · rw [is_outdated_checkpointName, hfalse, Bool.and_false]
    · rw [is_outdated_logName, hfalse, Bool.and_false]

/-- Witness for C8 at a concrete directory: cleanup at version 3 deletes
exactly the staging file and the version-1 checkpoint/log, keeping the
pointer and the current version's files. -/
theorem c8_cleanup_exact_witness :
    cleanup noFaults 3 [(checkpointName 1, [0]), (VERSION_FILE, [48]),
        (logName 1, [2]), (checkpointName 3, [7]), (logName 3, []),
        (NEW_VERSION_FILE, [51])] =
      ([(checkpointName 1, [0]), (VERSION_FILE, [48]), (logName 1, [2]),
          (checkpointName 3, [7]), (logName 3, []),
          (NEW_VERSION_FILE, [51])].filter
        (fun e => !is_outdated_file 3 e.1), .ok ()) ∧
    is_outdated_file 3 NEW_VERSION_FILE = true ∧
    (∀ w, w < 3 → is_outdated_file 3 (checkpointName w) = true ∧
      is_outdated_file 3 (logName w) = true) ∧
    is_outdated_file 3 VERSION_FILE = false ∧
    (∀ w, 3 ≤ w → is_outdated_file 3 (checkpointName w) = false ∧
      is_outdated_file 3 (logName w) = false) :=
  c8_cleanup_exact 3 (by norm_num) _ (by decide)

/-- Counterexample to C4 as stated: a log holding one well-formed record
(`"1\n"`, bytes `[49, 10]`) followed by the malformed byte `0xFF` makes
`open` FAIL with `InvalidData` — `JsonFormat::deserialize_params` runs
`str::from_utf8` over the whole log first, so a non-UTF-8 malformed tail
is not tolerated, contradicting "open succeeds ... regardless of its
position". -/
theorem c4_counterexample :
    getFile [(checkpointName 0, [48]), (VERSION_FILE, [48]),
        (logName 0, [49, 10, 255])] (logName 0) =
      some (utf8Encode (joinNL [[Char.ofNat 49]]) ++ [255]) ∧
    digitCodec.paramsFromString [Char.ofNat 49] = .ok 1 ∧
    openDb (0 : Nat) toyApp (JsonFormat digitCodec) noFaults
        (some [(checkpointName 0, [48]), (VERSION_FILE, [48]),
          (logName 0, [49, 10, 255])]) =
      (some [(checkpointName 0, [48]), (VERSION_FILE, [48]),
        (logName 0, [49, 10, 255])], .error .invalidData) := by
  decide

/-- C4 amended: for a log consisting of well-formed records followed by
malformed bytes, `open` succeeds with exactly the well-formed prefix
applied — provided the malformed tail is still valid UTF-8; replay stops
at the first line that fails to parse, wherever it sits (anything may
follow it).  (For a non-UTF-8 tail, `open` fails instead, see the
counterexample.) -/
theorem c4_truncated_tail_amended {T A : Type} (dflt : T) (app : T → A → T)
    (c : JsonCodec T A) {d : Dir} {vb cb : Bytes} {v : Nat} {t0 : T}
    {us : List A} {lines : List (List Char)} {tail : Bytes} {tcs : List Char}
    {pre : List (List Char)} {badLine : List Char} {post : List (List Char)}
    {e : DbError}
    (hnostg : getFile d NEW_VERSION_FILE = none)
    (hvb : getFile d VERSION_FILE = some vb)
    (hpv : parseVersionBytes vb = some v)
    (hcb : getFile d (checkpointName v) = some cb)
    (hde : (JsonFormat c).deserialize_data cb = .ok t0)
    (hlog : getFile d (logName v) = some (utf8Encode (joinNL lines) ++ tail))
    (hgood : List.Forall₂ (fun u l =>
      c.paramsFromString l = .ok u ∧ l ≠ [] ∧ '\n' ∉ l) us lines)
    (htail : utf8Decode tail = some tcs)
    (hbad : splitNL tcs = pre ++ badLine :: post)
    (hpre : ∀ x ∈ pre, x = [])
    (hbadline : badLine ≠ [])
    (herr : c.paramsFromString badLine = .error e) :
    openDb dflt app (JsonFormat c) noFaults (some d) =
      (some d, .ok ⟨us.foldl app t0, v⟩) := by
  have hlines : ∀ l ∈ lines, '\n' ∉ l := by
    clear hlog
    induction hgood with
    | nil => intro l hl; cases hl
    | cons hf hrest ih =>
      intro l hl
      rcases List.mem_cons.mp hl with hl | hl
      · exact hl ▸ hf.2.2
      · exact ih l hl
  have hgood2 : List.Forall₂ (fun u l =>
      c.paramsFromString l = .ok u ∧ l ≠ []) us lines := by
    clear hlog hlines
    induction hgood with
    | nil => exact List.Forall₂.nil
    | cons hf hrest ih => exact List.Forall₂.cons ⟨hf.1, hf.2.1⟩ ih
  have hdp : (JsonFormat c).deserialize_params
      (utf8Encode (joinNL lines) ++ tail) = .ok us := by
    unfold JsonFormat
    simp only []
    rw [utf8Decode_encode_append, htail]
    simp only [Option.map_some']
    rw [splitNL_joinNL hlines tcs, hbad, parseLines_append c.paramsFromString
      hgood2, parseLines_badTail c.paramsFromString pre badLine post e hpre
      hbadline herr, List.append_nil]
  exact good_reopen ⟨hnostg, ⟨vb, hvb, hpv⟩,
    ⟨cb, t0, _, us, hcb, hde, hlog, hdp, rfl⟩⟩

/-- Witness for the amended C4: a log with the good record `"1\n"`
followed by the UTF-8 but unparseable byte `'x'` opens fine with only the
record 1 applied. -/
theorem c4_truncated_tail_amended_witness :
    openDb (0 : Nat) toyApp (JsonFormat digitCodec) noFaults
        (some [(checkpointName 0, [48]), (VERSION_FILE, [48]),
          (logName 0, [49, 10, 120])]) =
      (some [(checkpointName 0, [48]), (VERSION_FILE, [48]),
        (logName 0, [49, 10, 120])],
        .ok ⟨[1].foldl toyApp 0, 0⟩) :=
  c4_truncated_tail_amended 0 toyApp digitCodec
    (by decide) (by decide)
    (show parseVersionBytes [48] = some 0 from by decide)
    (by decide)
    (show (JsonFormat digitCodec).deserialize_data [48] = .ok 0 from by decide)
    (show getFile [(checkpointName 0, [48]), (VERSION_FILE, [48]),
        (logName 0, [49, 10, 120])] (logName 0) =
      some (utf8Encode (joinNL [[Char.ofNat 49]]) ++ [120]) from by decide)
    (List.Forall₂.cons (by decide) List.Forall₂.nil)
    (show utf8Decode [120] = some [Char.ofNat 120] from by decide)
    (show splitNL [Char.ofNat 120] = [] ++ [Char.ofNat 120] :: [] from by decide)
    (fun x hx => absurd hx (List.not_mem_nil x))
    (by decide)
    (show digitCodec.paramsFromString [Char.ofNat 120] = .error .invalidData
      from by decide)

/-- Witness for C6: a concrete store with a leftover staging file naming
version 1 recovers at version 1. -/
theorem c6_staging_recovery_witness :
    (openDb (0 : Nat) toyApp toyFmt noFaults
        (some [(checkpointName 1, [7]), (logName 1, []), (VERSION_FILE, [48]),
          (NEW_VERSION_FILE, [49])]) =
      openDb (0 : Nat) toyApp toyFmt noFaults
        (some (setFile (removeFileD [(checkpointName 1, [7]), (logName 1, []),
            (VERSION_FILE, [48]), (NEW_VERSION_FILE, [49])] NEW_VERSION_FILE)
          VERSION_FILE [49]))) ∧
    ∀ (db : Db Nat),
      (openDb (0 : Nat) toyApp toyFmt noFaults
        (some [(checkpointName 1, [7]), (logName 1, []), (VERSION_FILE, [48]),
          (NEW_VERSION_FILE, [49])])).2 = .ok db →
      parseVersionBytes [49] = some db.version :=
  c6_staging_recovery 0 toyApp toyFmt (by decide)

end BjwDb
